import Mathlib

/-!
Verification of the TDS assignment-solver pipeline (a FastAPI service that
routes free-text questions to deterministic handlers or a generative
fallback).  The Python sources are shallowly embedded: pure string and data
manipulation is translated into executable Lean functions on `List Char` /
`String`; file reads, subprocess spawning and HTTP calls are abstracted as
explicit inputs (oracles); a Python function that may raise an exception is
embedded with result type `Except`.  Machine floats appear only in one
branch of the key=value converter; there the accepted token is kept
verbatim rather than modelling IEEE-754 (see `floatReprTok`).
-/

/-! ## Generic helpers: Python string primitives on `List Char` -/

/-- Python whitespace characters recognised by `str.strip` / `str.split`
(ASCII subset; the sources only ever strip ASCII text). -/
def isPyWs (c : Char) : Bool :=
  c = ' ' || c = '\t' || c = '\n' || c = '\r' || c = '\x0b' || c = '\x0c'

/-- Python `str.strip()` with no arguments: drop leading and trailing
whitespace. -/
def pyStripL (l : List Char) : List Char :=
  ((l.dropWhile isPyWs).reverse.dropWhile isPyWs).reverse

/-- Python `str.lower()` (ASCII case folding, which is all the sources use). -/
def pyLowerL (l : List Char) : List Char :=
  l.map Char.toLower

/-- Split a character list at every occurrence of `sep`, keeping empty
pieces: the model of Python `str.split(sep)` with an explicit separator. -/
def splitOnCharL (sep : Char) : List Char → List (List Char)
  | [] => [[]]
  | c :: cs =>
    match splitOnCharL sep cs with
    | [] => [[]]
    | g :: gs => if c = sep then [] :: g :: gs else (c :: g) :: gs

/-- Split at the first occurrence of `sep` only, the model of Python
`str.split(sep, 1)`; `none` when `sep` does not occur. -/
def splitFirstOn (sep : Char) : List Char → Option (List Char × List Char)
  | [] => none
  | c :: cs =>
    if c = sep then some ([], cs)
    else
      match splitFirstOn sep cs with
      | some (a, b) => some (c :: a, b)
      | none => none

/-- Python `str.split()` with no argument: split on whitespace runs,
dropping empty pieces. -/
def pySplitWsL : List Char → List (List Char)
  | [] => []
  | c :: cs =>
    if isPyWs c then pySplitWsL cs
    else
      match pySplitWsL cs with
      | [] => [[c]]
      | g :: gs =>
        match cs with
        | [] => [[c]]
        | d :: _ => if isPyWs d then [c] :: g :: gs else (c :: g) :: gs

/-- Boolean list-prefix test. -/
def isPrefixOfL : List Char → List Char → Bool
  | [], _ => true
  | _ :: _, [] => false
  | a :: as, b :: bs => a = b && isPrefixOfL as bs

/-- Boolean substring test on character lists: the model of Python
`needle in haystack` for strings. -/
def isSubL (pat : List Char) : List Char → Bool
  | [] => pat.isEmpty
  | c :: cs => isPrefixOfL pat (c :: cs) || isSubL pat cs

/-- Decode a digit run as a natural number (most significant first). -/
def decodeDigits (l : List Char) : Nat :=
  l.foldl (fun a c => a * 10 + (c.toNat - 48)) 0

/-- Python `str.isdigit()` restricted to ASCII input: non-empty and all
characters in `0`-`9` (the sources only feed ASCII key=value text). -/
def isPyDigitStr (l : List Char) : Bool :=
  !l.isEmpty && l.all Char.isDigit

/-! ## Python `float(value)` literal grammar

`_convert_value_type` calls `float(value)` and only cares whether it
raises `ValueError`; the grammar of accepted tokens is embedded here
(optional surrounding whitespace, optional sign, `inf`/`infinity`/`nan`
case-insensitively, or a decimal mantissa with optional fraction and
exponent, with PEP-515 underscores between digits). -/

/-- Consume the continuation of a digit run: `(digit | '_' digit)*`,
returning the unconsumed remainder. -/
def digRunRest : List Char → List Char
  | [] => []
  | c :: cs =>
    if c.isDigit then digRunRest cs
    else
      match c, cs with
      | '_', d :: ds => if d.isDigit then digRunRest ds else '_' :: d :: ds
      | _, _ => c :: cs

/-- Consume `digit (digit | '_' digit)*`; `none` when the input does not
start with a digit. -/
def digRun : List Char → Option (List Char)
  | [] => none
  | c :: cs => if c.isDigit then some (digRunRest cs) else none

/-- Consume the exponent part `(('e'|'E') ('+'|'-')? digits)?` and require
that nothing is left. -/
def floatExpOk : List Char → Bool
  | [] => true
  | c :: cs =>
    if c = 'e' || c = 'E' then
      let cs' := match cs with
        | s :: ss => if s = '+' || s = '-' then ss else s :: ss
        | [] => []
      match digRun cs' with
      | some [] => true
      | _ => false
    else false

/-- Consume the mantissa `digits ('.' digits?)? | '.' digits` and then the
exponent; whole-input acceptance. -/
def floatMantOk (l : List Char) : Bool :=
  match digRun l with
  | some rest =>
    match rest with
    | '.' :: r2 =>
      match digRun r2 with
      | some r3 => floatExpOk r3
      | none => floatExpOk r2
    | _ => floatExpOk rest
  | none =>
    match l with
    | '.' :: r2 =>
      match digRun r2 with
      | some r3 => floatExpOk r3
      | none => false
    | _ => false

/-- Does Python `float(value)` succeed on this token? -/
def pyFloatStr (l : List Char) : Bool :=
  let l1 := pyStripL l
  let l2 := match l1 with
    | c :: cs => if c = '+' || c = '-' then cs else c :: cs
    | [] => []
  let low := pyLowerL l2
  if low = ("inf").data || low = ("infinity").data || low = ("nan").data then true
  else floatMantOk l2

/-! ## JSON serialisation (`json.dumps`)

Two separator conventions are used by the sources: the compact
`separators=(',', ':')` form and the default `(', ', ': ')` form.
`ensure_ascii=True` escaping is embedded (`\uXXXX` with surrogate pairs
for astral characters, lowercase hex as CPython emits). -/

/-- Lowercase hexadecimal digit. -/
def hexDigitChar (n : Nat) : Char :=
  if n < 10 then Char.ofNat (48 + n) else Char.ofNat (87 + n)

/-- Four-digit lowercase hexadecimal rendering. -/
def hex4 (n : Nat) : List Char :=
  [hexDigitChar (n / 4096 % 16), hexDigitChar (n / 256 % 16),
   hexDigitChar (n / 16 % 16), hexDigitChar (n % 16)]

/-- Escape one character the way `json.dumps` (with `ensure_ascii=True`)
does. -/
def jsonEscChar (c : Char) : List Char :=
  if c = '"' then ['\\', '"']
  else if c = '\\' then ['\\', '\\']
  else if c = '\n' then ['\\', 'n']
  else if c = '\r' then ['\\', 'r']
  else if c = '\t' then ['\\', 't']
  else if c = '\x08' then ['\\', 'b']
  else if c = '\x0c' then ['\\', 'f']
  else if c.toNat < 32 || c.toNat > 126 then
    if c.toNat ≤ 65535 then '\\' :: 'u' :: hex4 c.toNat
    else
      let v := c.toNat - 65536
      ('\\' :: 'u' :: hex4 (55296 + v / 1024)) ++ ('\\' :: 'u' :: hex4 (56320 + v % 1024))
  else [c]

/-- JSON string literal rendering. -/
def jsonStrL (s : List Char) : List Char :=
  '"' :: s.flatMap jsonEscChar ++ ['"']

/-- Interleave a separator between rendered items. -/
def joinSep (sep : List Char) : List (List Char) → List Char
  | [] => []
  | [x] => x
  | x :: y :: rest => x ++ sep ++ joinSep sep (y :: rest)

/-! ## `JSONProcessorHandler.convert_keyvalue_to_json` and
`_convert_value_type` (src/app/handlers/json_processor_handler.py)

The file read is abstracted: the embedding takes the file content that
Python's `f.read()` would return.  A Python value produced by
`_convert_value_type` is one of: `int`, `float`, `bool`, a list of
strings, or a string. -/

/-- Result values of `_convert_value_type`.  The `pfloat` constructor
keeps the token accepted by `float(...)`; the IEEE-754 value is not
modelled (see `floatReprTok`). -/
inductive PyVal where
  | pint (n : Nat)
  | pfloat (tok : List Char)
  | pbool (b : Bool)
  | plist (items : List (List Char))
  | pstr (s : List Char)
deriving DecidableEq

/-- Embedding of `JSONProcessorHandler._convert_value_type`: type
inference for one `key=value` value string. -/
def convert_value_type (value : List Char) : PyVal :=
  if isPyDigitStr value then .pint (decodeDigits value)
  else if pyFloatStr value then .pfloat value
  else if pyLowerL value = ("true").data then .pbool true
  else if pyLowerL value = ("false").data then .pbool false
  else if value.contains ',' then
    if (splitOnCharL ',' value).length > 1 then
      .plist ((splitOnCharL ',' value).map pyStripL)
    else .pstr value
  else .pstr value

/-- Python dict assignment `d[k] = v`: an existing key keeps its
insertion position and gets the new value, a new key is appended. -/
def dictInsert (m : List (List Char × PyVal)) (k : List Char) (v : PyVal) :
    List (List Char × PyVal) :=
  if m.any (fun p => p.1 = k) then
    m.map (fun p => if p.1 = k then (k, v) else p)
  else m ++ [(k, v)]

/-- Python `repr` of the float parsed from `tok`, as `json.dumps` would
print it.  Not modelled (floating point); the token is kept verbatim.
Every theorem below treats the float branch symbolically through this
function. -/
def floatReprTok (tok : List Char) : List Char :=
  tok

/-- Rendering of one `PyVal` inside `json.dumps(..., separators=(',', ':'))`. -/
def dumpPyVal : PyVal → List Char
  | .pint n => (toString n).data
  | .pfloat tok => floatReprTok tok
  | .pbool true => ("true").data
  | .pbool false => ("false").data
  | .plist items => '[' :: joinSep ([',']) (items.map jsonStrL) ++ [']']
  | .pstr s => jsonStrL s

/-- Compact `json.dumps` of the assembled object, with separators
`(',', ':')` as in the source. -/
def dumpKVObject (m : List (List Char × PyVal)) : List Char :=
  '\x7b' :: joinSep ([',']) (m.map (fun p => jsonStrL p.1 ++ ':' :: dumpPyVal p.2)) ++ ['\x7d']

/-- Fold one text line into the accumulated object: lines without `=` are
skipped, otherwise split at the first `=`, strip the key, convert the
value. -/
def kvLineStep (m : List (List Char × PyVal)) (line : List Char) :
    List (List Char × PyVal) :=
  match splitFirstOn '=' line with
  | some (k, v) => dictInsert m (pyStripL k) (convert_value_type v)
  | none => m

/-- Embedding of `JSONProcessorHandler.convert_keyvalue_to_json`, from the
file content onward (`open`/`read` abstracted; with readable input the
`except` branch is unreachable because the remaining body is total). -/
def convert_keyvalue_to_json (content : List Char) : List Char :=
  dumpKVObject ((splitOnCharL '\n' (pyStripL content)).foldl kvLineStep [])

/-! ### Spec-modelled converter (for the refinement claim C8)

`spec_convert_value_type` follows the specification's words: "inferring
value type in strict order — integer if all-digit, else float, else
boolean literal (`true`/`false`, case-insensitive), else comma-split list
if a comma is present, else raw string".  It is deliberately written from
that sentence, to be compared with `convert_value_type` above. -/

/-- Value-type inference exactly as the specification sentence orders it. -/
def spec_convert_value_type (value : List Char) : PyVal :=
  if !value.isEmpty && value.all Char.isDigit then .pint (decodeDigits value)
  else if pyFloatStr value then .pfloat value
  else if pyLowerL value = ("true").data then .pbool true
  else if pyLowerL value = ("false").data then .pbool false
  else if value.contains ',' then .plist ((splitOnCharL ',' value).map pyStripL)
  else .pstr value

/-- Spec-modelled whole-file converter: parse `key=value` lines and emit a
compact JSON object, with values inferred by `spec_convert_value_type`. -/
def spec_convert_keyvalue_to_json (content : List Char) : List Char :=
  dumpKVObject ((splitOnCharL '\n' (pyStripL content)).foldl
    (fun m line =>
      match splitFirstOn '=' line with
      | some (k, v) => dictInsert m (pyStripL k) (spec_convert_value_type v)
      | none => m) [])

/-! ## Lemmas and claims C8, C9 -/

/-- Splitting never returns an empty group list. -/
theorem splitOnCharL_ne_nil (sep : Char) (l : List Char) :
    splitOnCharL sep l ≠ [] := by
  cases l with
  | nil => simp [splitOnCharL]
  | cons c cs =>
    simp only [splitOnCharL]
    rcases h : splitOnCharL sep cs with _ | ⟨g, gs⟩
    · simp
    · by_cases hc : c = sep <;> simp [hc]

/-- When the separator occurs, splitting yields at least two groups. -/
theorem splitOnCharL_length_gt_one (sep : Char) (l : List Char)
    (h : l.contains sep) : 1 < (splitOnCharL sep l).length := by
  induction l with
  | nil => simp at h
  | cons c cs ih =>
    simp only [splitOnCharL]
    rcases hs : splitOnCharL sep cs with _ | ⟨g, gs⟩
    · exact absurd hs (splitOnCharL_ne_nil sep cs)
    · by_cases hc : c = sep
      · simp [hc]
      · have hcs : cs.contains sep := by
          simp only [List.contains_cons] at h
          rcases Bool.or_eq_true_iff.mp h with h1 | h2
          · exact absurd (beq_iff_eq.mp h1).symm hc
          · exact h2
        have := ih hcs
        rw [hs] at this
        simp only [List.length_cons] at this
        simp [hc]
        omega

/-- Pointwise refinement: the source's value-type inference agrees with
the specification's strict order for every value string. -/
theorem convert_value_type_eq_spec (v : List Char) :
    convert_value_type v = spec_convert_value_type v := by
  unfold convert_value_type spec_convert_value_type isPyDigitStr
  by_cases h1 : (!v.isEmpty && v.all Char.isDigit) = true
  · simp [h1]
  · simp only [Bool.not_eq_true] at h1
    simp only [h1, if_false, Bool.false_eq_true]
    by_cases h2 : pyFloatStr v = true
    · simp [h2]
    · simp only [Bool.not_eq_true] at h2
      simp only [h2, if_false, Bool.false_eq_true]
      by_cases h3 : pyLowerL v = ("true").data
      · simp [h3]
      · simp only [h3, if_false]
        by_cases h4 : pyLowerL v = ("false").data
        · simp [h4]
        · simp only [h4, if_false]
          by_cases h5 : v.contains ',' = true
          · simp only [h5, if_true]
            rw [if_pos (splitOnCharL_length_gt_one ',' v h5)]
          · simp only [Bool.not_eq_true] at h5
            simp only [h5, Bool.false_eq_true, if_false]

/-- C8: for every input file of `key=value` lines the converter infers
each value's type in the strict order the specification gives (integer if
all digits, else float, else case-insensitive boolean literal, else
comma-split list when a comma occurs, else raw string) and emits the
compact no-whitespace JSON object mapping each key to its converted
value: the embedding of the handler coincides with the converter written
from the specification's words, on all inputs. -/
theorem C8_keyvalue_converter_matches_spec (content : List Char) :
    convert_keyvalue_to_json content = spec_convert_keyvalue_to_json content := by
  unfold convert_keyvalue_to_json spec_convert_keyvalue_to_json
  have hstep : kvLineStep = fun m line =>
      match splitFirstOn '=' line with
      | some (k, v) => dictInsert m (pyStripL k) (spec_convert_value_type v)
      | none => m := by
    funext m line
    unfold kvLineStep
    cases hsp : splitFirstOn '=' line with
    | none => rfl
    | some kv =>
      obtain ⟨k, v⟩ := kv
      show dictInsert m (pyStripL k) (convert_value_type v) =
        dictInsert m (pyStripL k) (spec_convert_value_type v)
      rw [convert_value_type_eq_spec]
  rw [hstep]

/-- C9: whenever the value converter produces a list (a value containing
a comma that is neither numeric nor boolean), the list's elements are
exactly the comma-split fragments with surrounding whitespace stripped,
kept as raw strings with no recursive type inference; in particular the
value `1,2` converts to the list of strings `1` and `2`, not to a list of
integers. -/
theorem C9_list_elements_are_stripped_strings (v : List Char)
    (items : List (List Char))
    (h : convert_value_type v = .plist items) :
    items = (splitOnCharL ',' v).map pyStripL ∧
    convert_value_type (("1,2").data) = .plist [("1").data, ("2").data] := by
  constructor
  · unfold convert_value_type at h
    split_ifs at h
    all_goals (cases h; try rfl)
  · decide

/-- Witness for C9 at the concrete value `1,2`. -/
theorem C9_list_elements_are_stripped_strings_witness :
    convert_value_type (("1,2").data) = .plist [("1").data, ("2").data] ∧
    [("1").data, ("2").data] = (splitOnCharL ',' (("1,2").data)).map pyStripL := by
  refine ⟨by decide, ?_⟩
  exact (C9_list_elements_are_stripped_strings (("1,2").data)
    [("1").data, ("2").data] (by decide)).1

/-! ## `JSONHandler.extract_json_key` (src/app/handlers/json_handler.py)

`json.loads` is abstracted: the embedding takes the already-parsed JSON
value (JSON numbers are modelled as integers; none of the claims touches
float-valued JSON).  Python dicts from `json.loads` have unique keys, so
an association list with first-match lookup is a faithful model. -/

/-- Parsed JSON values as produced by `json.loads`. -/
inductive JVal where
  | jnull
  | jbool (b : Bool)
  | jint (n : Int)
  | jstr (s : List Char)
  | jarr (xs : List JVal)
  | jobj (kvs : List (List Char × JVal))

/-- Python type name of a parsed JSON value, as it appears in
`AttributeError` / `TypeError` messages. -/
def pyTypeName : JVal → List Char
  | .jnull => ("NoneType").data
  | .jbool _ => ("bool").data
  | .jint _ => ("int").data
  | .jstr _ => ("str").data
  | .jarr _ => ("list").data
  | .jobj _ => ("dict").data

/-- Python `dict.get(k, default)` on the association list. -/
def lookupD (kvs : List (List Char × JVal)) (k : List Char) (d : JVal) : JVal :=
  match kvs with
  | [] => d
  | (k', v) :: rest => if k' = k then v else lookupD rest k d

/-- Python `k in dict` / plain lookup, `none` when the key is absent. -/
def lookupOpt (kvs : List (List Char × JVal)) (k : List Char) : Option JVal :=
  match kvs with
  | [] => none
  | (k', v) :: rest => if k' = k then some v else lookupOpt rest k

/-- One component of a key path, as produced by
`re.findall(r'(\w+)|\[(\d+)\]', key_path)`: a field name or a bracketed
index. -/
inductive PathComp where
  | name (n : List Char)
  | idx (i : Nat)
deriving DecidableEq

/-- The `\w` word-character class (ASCII range, which is all the sources
use in key paths). -/
def isWordChar (c : Char) : Bool :=
  c.isAlphanum || c = '_'

/-- Fuel-indexed scanner for `re.findall(r'(\w+)|\[(\d+)\]', ...)`:
at each position try a maximal word run, else a full `[digits]` group
(on a failed bracket match the scan advances one character, as
`re.findall` does), else skip one character.  Fuel bounds the input
length so the function is structurally recursive and kernel-evaluable. -/
def scanPathF : Nat → List Char → List PathComp
  | 0, _ => []
  | fuel + 1, l =>
    match l with
    | [] => []
    | c :: cs =>
      if isWordChar c then
        .name (c :: cs.takeWhile isWordChar) :: scanPathF fuel (cs.dropWhile isWordChar)
      else if c = '[' then
        match cs.takeWhile Char.isDigit, cs.dropWhile Char.isDigit with
        | [], _ => scanPathF fuel cs
        | ds, ']' :: rest3 => .idx (decodeDigits ds) :: scanPathF fuel rest3
        | _, _ => scanPathF fuel cs
      else scanPathF fuel cs

/-- Key-path scanner (fuel instantiated with the input length, which
always suffices because every step consumes at least one character). -/
def scanPath (l : List Char) : List PathComp :=
  scanPathF l.length l

/-- Outcome of the extraction loop: a reached value, an index error
returned directly by the loop, or an `AttributeError` (calling `.get` on
a non-dict) that the outer `except` turns into an error string. -/
inductive WalkRes where
  | ok (v : JVal)
  | idxErr (i : Nat)
  | attrErr (tn : List Char)

/-- Embedding of the navigation loop of `JSONHandler.extract_json_key`:
a name component does `value = value.get(name, {})` (raising
`AttributeError` on a non-dict), an index component requires a list and
an in-bounds index and otherwise returns the out-of-range error. -/
def walkPath : JVal → List PathComp → WalkRes
  | v, [] => .ok v
  | v, .name n :: rest =>
    match v with
    | .jobj kvs => walkPath (lookupD kvs n (.jobj [])) rest
    | _ => .attrErr (pyTypeName v)
  | v, .idx i :: rest =>
    match v with
    | .jarr xs =>
      match xs[i]? with
      | some x => walkPath x rest
      | none => .idxErr i
    | _ => .idxErr i

mutual

/-- The model of `json.dumps` with the DEFAULT separators `', '` and `': '`
(the final serialisation in `extract_json_key` passes no `separators`),
mutually with its renderings of array elements and object entries. -/
def jsonDumpsDef : JVal → List Char
  | .jnull => ("null").data
  | .jbool true => ("true").data
  | .jbool false => ("false").data
  | .jint n => (toString n).data
  | .jstr s => jsonStrL s
  | .jarr xs => '[' :: joinSep ((", ").data) (jsonDumpsArr xs) ++ [']']
  | .jobj kvs => '\x7b' :: joinSep ((", ").data) (jsonDumpsObj kvs) ++ ['\x7d']

def jsonDumpsArr : List JVal → List (List Char)
  | [] => []
  | x :: xs => jsonDumpsDef x :: jsonDumpsArr xs

def jsonDumpsObj : List (List Char × JVal) → List (List Char)
  | [] => []
  | (k, v) :: rest => (jsonStrL k ++ (": ").data ++ jsonDumpsDef v) :: jsonDumpsObj rest

end

/-- Final rendering of the reached value: `json.dumps` for dicts and
lists, Python `str(...)` for scalars. -/
def renderFinal (v : JVal) : List Char :=
  match v with
  | .jarr xs => jsonDumpsDef (.jarr xs)
  | .jobj kvs => jsonDumpsDef (.jobj kvs)
  | .jnull => ("None").data
  | .jbool true => ("True").data
  | .jbool false => ("False").data
  | .jint n => (toString n).data
  | .jstr s => s

/-- Embedding of `JSONHandler.extract_json_key` from the parsed JSON
value onward. -/
def extract_json_key (data : JVal) (key_path : String) : String :=
  match walkPath data (scanPath key_path.data) with
  | .ok v => String.mk (renderFinal v)
  | .idxErr i => "Error: Index " ++ toString i ++ " out of range"
  | .attrErr tn =>
    String.mk ((("Error extracting from JSON: \x27").data ++ tn) ++
      ("\x27 object has no attribute \x27get\x27").data)

/-! ### Spec-side traversal notions for C6 and C10 -/

/-- Strict sub-value lookup: every name present, every index in range
(the specification's "every path component is present"). -/
def strictSub : JVal → List PathComp → Option JVal
  | v, [] => some v
  | .jobj kvs, .name n :: rest =>
    match lookupOpt kvs n with
    | some v => strictSub v rest
    | none => none
  | .jarr xs, .idx i :: rest =>
    match xs[i]? with
    | some x => strictSub x rest
    | none => none
  | _, _ => none

/-- Empty-object-defaulted traversal, the specification's leniency
policy: a name applied to a dict falls back to `{}` when absent; every
name must still hit a dict and every index a list position. -/
def defaultedSub : JVal → List PathComp → Option JVal
  | v, [] => some v
  | .jobj kvs, .name n :: rest => defaultedSub (lookupD kvs n (.jobj [])) rest
  | .jarr xs, .idx i :: rest =>
    match xs[i]? with
    | some x => defaultedSub x rest
    | none => none
  | _, _ => none

/-- The traversal (with the `get`-default semantics) reaches a bracketed
index `i` applied to a list shorter than `i + 1`. -/
inductive IdxOutOfRange : JVal → List PathComp → Nat → Prop
  | here (xs : List JVal) (i : Nat) (rest : List PathComp) :
      xs.length ≤ i → IdxOutOfRange (.jarr xs) (.idx i :: rest) i
  | stepName (kvs : List (List Char × JVal)) (n : List Char)
      (rest : List PathComp) (i : Nat) :
      IdxOutOfRange (lookupD kvs n (.jobj [])) rest i →
      IdxOutOfRange (.jobj kvs) (.name n :: rest) i
  | stepIdx (xs : List JVal) (j : Nat) (x : JVal) (rest : List PathComp) (i : Nat) :
      xs[j]? = some x → IdxOutOfRange x rest i →
      IdxOutOfRange (.jarr xs) (.idx j :: rest) i

/-- The traversal reaches a name component applied to the non-dict value
`bad` (so Python calls `.get` on it and gets an `AttributeError`). -/
inductive NameOnNonDict : JVal → List PathComp → JVal → Prop
  | here (v : JVal) (n : List Char) (rest : List PathComp) :
      (∀ kvs, v ≠ .jobj kvs) → NameOnNonDict v (.name n :: rest) v
  | stepName (kvs : List (List Char × JVal)) (n : List Char)
      (rest : List PathComp) (bad : JVal) :
      NameOnNonDict (lookupD kvs n (.jobj [])) rest bad →
      NameOnNonDict (.jobj kvs) (.name n :: rest) bad
  | stepIdx (xs : List JVal) (j : Nat) (x : JVal) (rest : List PathComp) (bad : JVal) :
      xs[j]? = some x → NameOnNonDict x rest bad →
      NameOnNonDict (.jarr xs) (.idx j :: rest) bad

/-! ### Lemmas and claims C6, C10 -/

/-- A present key makes `dict.get(k, d)` return the stored value. -/
theorem lookupD_of_lookupOpt (kvs : List (List Char × JVal)) (k : List Char)
    (d w : JVal) (h : lookupOpt kvs k = some w) : lookupD kvs k d = w := by
  induction kvs with
  | nil => simp [lookupOpt] at h
  | cons p rest ih =>
    obtain ⟨k', v⟩ := p
    by_cases hk : k' = k
    · simp [lookupOpt, hk] at h
      simp [lookupD, hk, h]
    · simp [lookupOpt, hk] at h
      simp [lookupD, hk, ih h]

/-- The strict (all-components-present) traversal is refined by the
extraction loop. -/
theorem walkPath_of_strictSub (comps : List PathComp) :
    ∀ data v, strictSub data comps = some v → walkPath data comps = .ok v := by
  induction comps with
  | nil =>
    intro data v h
    simp [strictSub] at h
    simp [walkPath, h]
  | cons comp rest ih =>
    intro data v h
    cases comp with
    | name n =>
      cases data <;> simp [strictSub] at h
      case jobj kvs =>
        rcases hw : lookupOpt kvs n with _ | w
        · rw [hw] at h; simp at h
        · rw [hw] at h
          simp only [walkPath]
          rw [lookupD_of_lookupOpt kvs n (.jobj []) w hw]
          exact ih _ _ h
    | idx i =>
      cases data <;> simp [strictSub] at h
      case jarr xs =>
        rcases hx : xs[i]? with _ | x
        · rw [hx] at h; simp at h
        · rw [hx] at h
          simp only [walkPath, hx]
          exact ih _ _ h

/-- The `{}`-defaulted traversal is refined by the extraction loop. -/
theorem walkPath_of_defaultedSub (comps : List PathComp) :
    ∀ data v, defaultedSub data comps = some v → walkPath data comps = .ok v := by
  induction comps with
  | nil =>
    intro data v h
    simp [defaultedSub] at h
    simp [walkPath, h]
  | cons comp rest ih =>
    intro data v h
    cases comp with
    | name n =>
      cases data <;> simp [defaultedSub] at h
      case jobj kvs =>
        simp only [walkPath]
        exact ih _ _ h
    | idx i =>
      cases data <;> simp [defaultedSub] at h
      case jarr xs =>
        rcases hx : xs[i]? with _ | x
        · rw [hx] at h; simp at h
        · rw [hx] at h
          simp only [walkPath, hx]
          exact ih _ _ h

/-- An out-of-range bracketed index makes the loop return the index
error. -/
theorem walkPath_of_idxOOR (data : JVal) (comps : List PathComp) (i : Nat)
    (h : IdxOutOfRange data comps i) : walkPath data comps = .idxErr i := by
  induction h with
  | here xs j rest hlen =>
    have : xs[j]? = none := by rw [List.getElem?_eq_none_iff]; exact hlen
    simp [walkPath, this]
  | stepName kvs n rest j _ ih => simp [walkPath, ih]
  | stepIdx xs j x rest i' hget _ ih => simp [walkPath, hget, ih]

/-- A name component applied to a non-dict makes the loop raise the
`AttributeError` carrying that value's type name. -/
theorem walkPath_of_nameOnNonDict (data : JVal) (comps : List PathComp)
    (bad : JVal) (h : NameOnNonDict data comps bad) :
    walkPath data comps = .attrErr (pyTypeName bad) := by
  induction h with
  | here v n rest hv =>
    cases v
    case jobj kvs => exact absurd rfl (hv kvs)
    all_goals simp [walkPath]
  | stepName kvs n rest b _ ih => simp [walkPath, ih]
  | stepIdx xs j x rest b hget _ ih => simp [walkPath, hget, ih]

/-- C6: for every parsed JSON value and key path, extraction returns the
rendering of the exact sub-value when every path component is present;
when an intermediate dictionary key is missing it returns the rendering
of the empty-object-defaulted traversal rather than an error; and when a
bracketed index exceeds the bounds of the array reached at that point it
returns the explicit out-of-range error string. -/
theorem C6_extract_json_key_behaviour (data : JVal) (path : String) :
    (∀ v, strictSub data (scanPath path.data) = some v →
      extract_json_key data path = String.mk (renderFinal v)) ∧
    (∀ v, defaultedSub data (scanPath path.data) = some v →
      extract_json_key data path = String.mk (renderFinal v)) ∧
    (∀ i, IdxOutOfRange data (scanPath path.data) i →
      extract_json_key data path = "Error: Index " ++ toString i ++ " out of range") := by
  refine ⟨?_, ?_, ?_⟩
  · intro v h
    unfold extract_json_key
    rw [walkPath_of_strictSub _ _ _ h]
  · intro v h
    unfold extract_json_key
    rw [walkPath_of_defaultedSub _ _ _ h]
  · intro i h
    unfold extract_json_key
    rw [walkPath_of_idxOOR _ _ _ h]

/-- Witness for C6 on a small concrete document: a fully present path, a
missing intermediate key, and an out-of-range index. -/
theorem C6_extract_json_key_behaviour_witness :
    strictSub (.jobj [(("a").data, .jarr [.jint 7])]) (scanPath (("a[0]").data))
        = some (.jint 7) ∧
    extract_json_key (.jobj [(("a").data, .jarr [.jint 7])]) ("a[0]")
        = String.mk (renderFinal (.jint 7)) ∧
    extract_json_key (.jobj [(("a").data, .jarr [.jint 7])]) ("a[5]")
        = "Error: Index " ++ toString 5 ++ " out of range" := by
  refine ⟨rfl, ?_, ?_⟩
  · exact (C6_extract_json_key_behaviour _ _).1 (.jint 7) rfl
  · refine (C6_extract_json_key_behaviour _ _).2.2 5 ?_
    exact .stepName _ _ _ _ (.here _ _ _ (by decide))

/-- C10: whenever a field-name path component is applied to an
intermediate value that is not a dictionary (a string, number, list,
boolean or null), extraction returns the error string beginning with
"Error extracting from JSON" built from the `AttributeError`, rather
than the empty-object default or an uncaught exception (the embedding is
a total function into `String`). -/
theorem C10_extract_name_on_non_dict (data : JVal) (path : String)
    (bad : JVal) (h : NameOnNonDict data (scanPath path.data) bad) :
    extract_json_key data path =
      String.mk ((("Error extracting from JSON: \x27").data ++ pyTypeName bad) ++
        ("\x27 object has no attribute \x27get\x27").data) := by
  unfold extract_json_key
  rw [walkPath_of_nameOnNonDict _ _ _ h]

/-- Witness for C10: a name component hitting a string value. -/
theorem C10_extract_name_on_non_dict_witness :
    NameOnNonDict (.jstr (("s").data)) (scanPath (("a").data)) (.jstr (("s").data)) ∧
    extract_json_key (.jstr (("s").data)) ("a") =
      String.mk ((("Error extracting from JSON: \x27").data ++
        pyTypeName (.jstr (("s").data))) ++
        ("\x27 object has no attribute \x27get\x27").data) := by
  have hnd : NameOnNonDict (.jstr (("s").data)) (scanPath (("a").data))
      (.jstr (("s").data)) := by
    have : scanPath (("a").data) = [.name (("a").data)] := rfl
    rw [this]
    exact .here _ _ _ (fun kvs hk => by cases hk)
  exact ⟨hnd, C10_extract_name_on_non_dict _ _ _ hnd⟩

/-! ## `DateHandler.count_wednesdays` (src/app/handlers/date_handler.py)

`datetime.strptime` with `%Y-%m-%d` (and the `%m/%d/%Y` fallback) is
embedded over the date strings themselves: four-digit year, one- or
two-digit month and day (as the `_strptime` regular expressions accept),
then the `datetime` range checks (year at least 1, day within the month,
Gregorian leap rule).  A date is represented by its proleptic Gregorian
ordinal (`datetime.toordinal`), on which `weekday()` is
`(ordinal + 6) % 7`. -/

/-- A calendar date as `datetime` holds it. -/
structure PyDate where
  year : Nat
  month : Nat
  day : Nat
deriving DecidableEq

/-- Gregorian leap-year rule. -/
def isLeapYear (y : Nat) : Bool :=
  (y % 4 = 0 && y % 100 ≠ 0) || y % 400 = 0

/-- Number of days in a month. -/
def daysInMonth (y m : Nat) : Nat :=
  match m with
  | 1 => 31
  | 2 => if isLeapYear y then 29 else 28
  | 3 => 31
  | 4 => 30
  | 5 => 31
  | 6 => 30
  | 7 => 31
  | 8 => 31
  | 9 => 30
  | 10 => 31
  | 11 => 30
  | 12 => 31
  | _ => 0

/-- Days in year `y` before month `m` starts. -/
def daysBeforeMonth (y m : Nat) : Nat :=
  (match m with
   | 1 => 0
   | 2 => 31
   | 3 => 59
   | 4 => 90
   | 5 => 120
   | 6 => 151
   | 7 => 181
   | 8 => 212
   | 9 => 243
   | 10 => 273
   | 11 => 304
   | 12 => 334
   | _ => 0) + (if 2 < m && isLeapYear y then 1 else 0)

/-- Proleptic Gregorian ordinal of a date (`datetime.toordinal`: day 1 is
0001-01-01). -/
def toOrdinal (d : PyDate) : Nat :=
  365 * (d.year - 1) + (d.year - 1) / 4 - (d.year - 1) / 100 + (d.year - 1) / 400 +
    daysBeforeMonth d.year d.month + d.day

/-- Dates `datetime` accepts: year 1-9999, month 1-12, day within the
month. -/
def ValidPyDate (d : PyDate) : Prop :=
  1 ≤ d.year ∧ d.year ≤ 9999 ∧ 1 ≤ d.month ∧ d.month ≤ 12 ∧
    1 ≤ d.day ∧ d.day ≤ daysInMonth d.year d.month

instance (d : PyDate) : Decidable (ValidPyDate d) := by
  unfold ValidPyDate
  infer_instance

/-- Decimal digit character, by case split (so that proofs can reason
about it without `Char.ofNat` arithmetic). -/
def decDigitChar (n : Nat) : Char :=
  if n = 0 then '0'
  else if n = 1 then '1'
  else if n = 2 then '2'
  else if n = 3 then '3'
  else if n = 4 then '4'
  else if n = 5 then '5'
  else if n = 6 then '6'
  else if n = 7 then '7'
  else if n = 8 then '8'
  else '9'

/-- Two-digit zero-padded decimal rendering. -/
def pad2 (n : Nat) : List Char :=
  [decDigitChar (n / 10 % 10), decDigitChar (n % 10)]

/-- Four-digit zero-padded decimal rendering. -/
def pad4 (n : Nat) : List Char :=
  [decDigitChar (n / 1000 % 10), decDigitChar (n / 100 % 10),
   decDigitChar (n / 10 % 10), decDigitChar (n % 10)]

/-- The canonical `YYYY-MM-DD` rendering of a date. -/
def renderYMD (d : PyDate) : String :=
  String.mk (pad4 d.year ++ '-' :: (pad2 d.month ++ '-' :: pad2 d.day))

/-- The canonical `MM/DD/YYYY` rendering of a date. -/
def renderMDY (d : PyDate) : String :=
  String.mk (pad2 d.month ++ '/' :: (pad2 d.day ++ '/' :: pad4 d.year))

/-- Shared field validation for both `strptime` formats: four-digit year,
one- or two-digit month and day, then the `datetime` constructor
checks. -/
def mkParsedDate (ys ms ds : List Char) : Option PyDate :=
  if ys.length = 4 && ys.all Char.isDigit &&
     !ms.isEmpty && ms.length ≤ 2 && ms.all Char.isDigit &&
     !ds.isEmpty && ds.length ≤ 2 && ds.all Char.isDigit then
    let y := decodeDigits ys
    let m := decodeDigits ms
    let d := decodeDigits ds
    if 1 ≤ y && 1 ≤ m && m ≤ 12 && 1 ≤ d && d ≤ daysInMonth y m then
      some ⟨y, m, d⟩
    else none
  else none

/-- `datetime.strptime(s, "%Y-%m-%d")` as an option. -/
def parseYMD (l : List Char) : Option PyDate :=
  match splitOnCharL '-' l with
  | [ys, ms, ds] => mkParsedDate ys ms ds
  | _ => none

/-- `datetime.strptime(s, "%m/%d/%Y")` as an option. -/
def parseMDY (l : List Char) : Option PyDate :=
  match splitOnCharL '/' l with
  | [ms, ds, ys] => mkParsedDate ys ms ds
  | _ => none

/-- The day-by-day loop `while current <= end` with its running
`count`, incremented on days whose `weekday()` is 2 (Wednesday); fuel is
the number of remaining days, so the function is structurally
recursive. -/
def wedLoopFuel : Nat → Nat → Nat → Nat → Nat
  | 0, _, _, count => count
  | fuel + 1, cur, e, count =>
    if cur ≤ e then
      wedLoopFuel fuel (cur + 1) e (count + (if (cur + 6) % 7 = 2 then 1 else 0))
    else count

/-- Wednesday count from ordinal `s` to ordinal `e` inclusive. -/
def wedCount (s e : Nat) : Nat :=
  wedLoopFuel (e + 1 - s) s e 0

/-- Embedding of `DateHandler.count_wednesdays`: parse both dates as
`%Y-%m-%d`; on failure of either, retry both as `%m/%d/%Y`; on success
run the counting loop and render the count with `str(...)`; otherwise the
parse-error string (the dynamic `str(e)` detail of the Python exception
is not modelled, only the prefix and suffix the source interpolates
around it). -/
def count_wednesdays (start_date_str end_date_str : String) : String :=
  match parseYMD start_date_str.data, parseYMD end_date_str.data with
  | some d1, some d2 => toString (wedCount (toOrdinal d1) (toOrdinal d2))
  | _, _ =>
    match parseMDY start_date_str.data, parseMDY end_date_str.data with
    | some d1, some d2 => toString (wedCount (toOrdinal d1) (toOrdinal d2))
    | _, _ => "Error parsing dates: time data does not match format. Please use YYYY-MM-DD format."

/-- Independent reference count: the cardinality of the set of ordinals
in the inclusive range whose weekday is Wednesday. -/
def refWedCount (d1 d2 : PyDate) : Nat :=
  ((Finset.Icc (toOrdinal d1) (toOrdinal d2)).filter (fun o => (o + 6) % 7 = 2)).card

/-! ### Counting-loop lemmas -/

/-- The day loop computes the cardinality of the set of Wednesdays in the
inclusive ordinal range. -/
theorem wedLoopFuel_card : ∀ (fuel s acc : Nat) (e : Nat), fuel = e + 1 - s →
    wedLoopFuel fuel s e acc =
      acc + ((Finset.Icc s e).filter (fun o => (o + 6) % 7 = 2)).card := by
  intro fuel
  induction fuel with
  | zero =>
    intro s acc e h
    have hlt : e < s := by omega
    rw [Finset.Icc_eq_empty (by omega)]
    simp [wedLoopFuel]
  | succ fuel ih =>
    intro s acc e h
    have hse : s ≤ e := by omega
    have hIcc : Finset.Icc s e = insert s (Finset.Icc (s + 1) e) := by
      rw [Nat.Icc_succ_left, Finset.Ioc_insert_left hse]
    have hnotmem : s ∉ Finset.Icc (s + 1) e := by
      intro hmem
      have := (Finset.mem_Icc.mp hmem).1
      omega
    simp only [wedLoopFuel, hse, if_true]
    rw [ih (s + 1) _ e (by omega), hIcc, Finset.filter_insert]
    by_cases hp : (s + 6) % 7 = 2
    · simp only [if_pos hp]
      rw [Finset.card_insert_of_not_mem
        (fun hmem => hnotmem (Finset.mem_filter.mp hmem).1)]
      omega
    · simp only [if_neg hp]
      omega

/-- Closed form for the day loop (used to evaluate the big concrete range
without unfolding the loop 9519 times): for ordinals `s ≥ 1` the count
from `s` to `e` is `(e+4)/7 - (s+3)/7`. -/
theorem wedLoopFuel_closed : ∀ (fuel s acc : Nat) (e : Nat), fuel = e + 1 - s →
    wedLoopFuel fuel s e acc = acc + ((e + 4) / 7 - (s + 3) / 7) := by
  intro fuel
  induction fuel with
  | zero =>
    intro s acc e h
    simp only [wedLoopFuel]
    omega
  | succ fuel ih =>
    intro s acc e h
    have hse : s ≤ e := by omega
    simp only [wedLoopFuel, hse, if_true]
    rw [ih (s + 1) _ e (by omega)]
    by_cases hp : (s + 6) % 7 = 2
    · simp only [hp, if_true]
      omega
    · simp only [hp, if_false]
      omega

/-- The loop agrees with the independent reference count. -/
theorem wedCount_eq_ref (d1 d2 : PyDate) :
    wedCount (toOrdinal d1) (toOrdinal d2) = refWedCount d1 d2 := by
  unfold wedCount refWedCount
  rw [wedLoopFuel_card _ _ _ _ rfl]
  omega

/-- Closed form for `wedCount`. -/
theorem wedCount_closed (s e : Nat) :
    wedCount s e = (e + 4) / 7 - (s + 3) / 7 := by
  unfold wedCount
  rw [wedLoopFuel_closed _ _ _ _ rfl]
  omega

/-! ### Digit-rendering and split lemmas -/

/-- Digit characters are digits. -/
theorem decDigitChar_isDigit (n : Nat) : (decDigitChar n).isDigit = true := by
  unfold decDigitChar
  split_ifs <;> decide

/-- Code point of a rendered digit. -/
theorem decDigitChar_toNat (n : Nat) (h : n < 10) : (decDigitChar n).toNat = 48 + n := by
  unfold decDigitChar
  split_ifs with h0 h1 h2 h3 h4 h5 h6 h7 h8
  all_goals try (subst_vars; decide)
  have h9 : n = 9 := by omega
  subst h9
  decide

/-- Rendered digits are never the date separator `-`. -/
theorem decDigitChar_ne_dash (n : Nat) : decDigitChar n ≠ '-' := by
  unfold decDigitChar
  split_ifs <;> decide

/-- Rendered digits are never the date separator `/`. -/
theorem decDigitChar_ne_slash (n : Nat) : decDigitChar n ≠ '/' := by
  unfold decDigitChar
  split_ifs <;> decide

/-- Two-digit decoding round trip. -/
theorem decodeDigits_pad2 (n : Nat) (h : n < 100) : decodeDigits (pad2 n) = n := by
  unfold pad2 decodeDigits
  simp only [List.foldl_cons, List.foldl_nil]
  rw [decDigitChar_toNat _ (Nat.mod_lt _ (by norm_num)),
      decDigitChar_toNat _ (Nat.mod_lt _ (by norm_num))]
  omega

/-- Four-digit decoding round trip. -/
theorem decodeDigits_pad4 (n : Nat) (h : n < 10000) : decodeDigits (pad4 n) = n := by
  unfold pad4 decodeDigits
  simp only [List.foldl_cons, List.foldl_nil]
  rw [decDigitChar_toNat _ (Nat.mod_lt _ (by norm_num)),
      decDigitChar_toNat _ (Nat.mod_lt _ (by norm_num)),
      decDigitChar_toNat _ (Nat.mod_lt _ (by norm_num)),
      decDigitChar_toNat _ (Nat.mod_lt _ (by norm_num))]
  omega

/-- Splitting a separator-free list yields one group. -/
theorem splitOnCharL_no_sep (sep : Char) (l : List Char)
    (h : ∀ c ∈ l, ¬ c = sep) : splitOnCharL sep l = [l] := by
  induction l with
  | nil => rfl
  | cons c cs ih =>
    simp only [splitOnCharL]
    rw [ih (fun d hd => h d (List.mem_cons_of_mem c hd))]
    show (if c = sep then [] :: cs :: [] else (c :: cs) :: []) = [c :: cs]
    rw [if_neg (h c (List.mem_cons_self c cs))]

/-- Splitting peels off a separator-free prefix. -/
theorem splitOnCharL_sep_append (sep : Char) (xs ys : List Char)
    (h : ∀ c ∈ xs, ¬ c = sep) :
    splitOnCharL sep (xs ++ sep :: ys) = xs :: splitOnCharL sep ys := by
  induction xs with
  | nil =>
    simp only [List.nil_append, splitOnCharL]
    rcases hs : splitOnCharL sep ys with _ | ⟨g, gs⟩
    · exact absurd hs (splitOnCharL_ne_nil sep ys)
    · simp
  | cons c cs ih =>
    simp only [List.cons_append, splitOnCharL, List.append_eq]
    rw [ih (fun d hd => h d (List.mem_cons_of_mem c hd))]
    show (if c = sep then [] :: cs :: splitOnCharL sep ys
          else (c :: cs) :: splitOnCharL sep ys) = (c :: cs) :: splitOnCharL sep ys
    rw [if_neg (h c (List.mem_cons_self c cs))]

/-- Months have at most 31 days. -/
theorem daysInMonth_le (y m : Nat) : daysInMonth y m ≤ 31 := by
  unfold daysInMonth
  split <;> first | omega | (split_ifs <;> omega)

/-- The shared field validation succeeds on the canonical renderings of a
valid date. -/
theorem mkParsedDate_pads (d : PyDate) (h : ValidPyDate d) :
    mkParsedDate (pad4 d.year) (pad2 d.month) (pad2 d.day) = some d := by
  obtain ⟨hy1, hy2, hm1, hm2, hd1, hd2⟩ := h
  have hdm : d.day < 100 := by have := daysInMonth_le d.year d.month; omega
  unfold mkParsedDate
  rw [if_pos (by simp [pad2, pad4, decDigitChar_isDigit])]
  simp only [decodeDigits_pad4 d.year (by omega), decodeDigits_pad2 d.month (by omega),
    decodeDigits_pad2 d.day hdm]
  rw [if_pos (by simp only [Bool.and_eq_true, decide_eq_true_eq]; omega)]

/-- `strptime("%Y-%m-%d")` inverts the canonical `YYYY-MM-DD` rendering. -/
theorem parseYMD_render (d : PyDate) (h : ValidPyDate d) :
    parseYMD (renderYMD d).data = some d := by
  have hdata : (renderYMD d).data = pad4 d.year ++ '-' :: (pad2 d.month ++ '-' :: pad2 d.day) := rfl
  have h4 : ∀ c ∈ pad4 d.year, ¬ c = '-' := by
    intro c hc
    simp [pad4] at hc
    rcases hc with h1 | h1 | h1 | h1 <;> subst h1 <;> exact decDigitChar_ne_dash _
  have hm : ∀ c ∈ pad2 d.month, ¬ c = '-' := by
    intro c hc
    simp [pad2] at hc
    rcases hc with h1 | h1 <;> subst h1 <;> exact decDigitChar_ne_dash _
  have hd : ∀ c ∈ pad2 d.day, ¬ c = '-' := by
    intro c hc
    simp [pad2] at hc
    rcases hc with h1 | h1 <;> subst h1 <;> exact decDigitChar_ne_dash _
  unfold parseYMD
  rw [hdata,
    splitOnCharL_sep_append '-' (pad4 d.year) (pad2 d.month ++ '-' :: pad2 d.day) h4,
    splitOnCharL_sep_append '-' (pad2 d.month) (pad2 d.day) hm,
    splitOnCharL_no_sep '-' (pad2 d.day) hd]
  exact mkParsedDate_pads d h

/-- `strptime("%m/%d/%Y")` inverts the canonical `MM/DD/YYYY` rendering. -/
theorem parseMDY_render (d : PyDate) (h : ValidPyDate d) :
    parseMDY (renderMDY d).data = some d := by
  have hdata : (renderMDY d).data = pad2 d.month ++ '/' :: (pad2 d.day ++ '/' :: pad4 d.year) := rfl
  have hm : ∀ c ∈ pad2 d.month, ¬ c = '/' := by
    intro c hc
    simp [pad2] at hc
    rcases hc with h1 | h1 <;> subst h1 <;> exact decDigitChar_ne_slash _
  have hd : ∀ c ∈ pad2 d.day, ¬ c = '/' := by
    intro c hc
    simp [pad2] at hc
    rcases hc with h1 | h1 <;> subst h1 <;> exact decDigitChar_ne_slash _
  have h4 : ∀ c ∈ pad4 d.year, ¬ c = '/' := by
    intro c hc
    simp [pad4] at hc
    rcases hc with h1 | h1 | h1 | h1 <;> subst h1 <;> exact decDigitChar_ne_slash _
  unfold parseMDY
  rw [hdata,
    splitOnCharL_sep_append '/' (pad2 d.month) (pad2 d.day ++ '/' :: pad4 d.year) hm,
    splitOnCharL_sep_append '/' (pad2 d.day) (pad4 d.year) hd,
    splitOnCharL_no_sep '/' (pad4 d.year) h4]
  exact mkParsedDate_pads d h

/-- A `MM/DD/YYYY` rendering contains no `-`, so the `%Y-%m-%d` attempt
fails on it. -/
theorem parseYMD_renderMDY (d : PyDate) : parseYMD (renderMDY d).data = none := by
  have hdata : (renderMDY d).data = pad2 d.month ++ '/' :: (pad2 d.day ++ '/' :: pad4 d.year) := rfl
  have hns : ∀ c ∈ pad2 d.month ++ '/' :: (pad2 d.day ++ '/' :: pad4 d.year), ¬ c = '-' := by
    intro c hc
    simp [pad2, pad4] at hc
    rcases hc with h1 | h1 | h1 | h1 | h1 | h1 | h1 | h1 | h1 | h1 <;>
      first
        | (subst h1; decide)
        | (subst h1; exact decDigitChar_ne_dash _)
  unfold parseYMD
  rw [hdata, splitOnCharL_no_sep '-' (pad2 d.month ++ '/' :: (pad2 d.day ++ '/' :: pad4 d.year)) hns]

/-! ### Claims C4 and C5 -/

/-- Reduction of the handler when both strings parse in `%Y-%m-%d`. -/
theorem count_wednesdays_ymd (s e : String) (d1 d2 : PyDate)
    (h1 : parseYMD s.data = some d1) (h2 : parseYMD e.data = some d2) :
    count_wednesdays s e = toString (wedCount (toOrdinal d1) (toOrdinal d2)) := by
  unfold count_wednesdays
  rw [h1, h2]

/-- Reduction of the handler when `%Y-%m-%d` fails on both strings and
`%m/%d/%Y` succeeds on both. -/
theorem count_wednesdays_mdy (s e : String) (d1 d2 : PyDate)
    (hn1 : parseYMD s.data = none) (hn2 : parseYMD e.data = none)
    (h1 : parseMDY s.data = some d1) (h2 : parseMDY e.data = some d2) :
    count_wednesdays s e = toString (wedCount (toOrdinal d1) (toOrdinal d2)) := by
  unfold count_wednesdays
  rw [hn1, hn2, h1, h2]

/-- The value the handler actually returns on the spec's end-to-end
scenario range (shared by several claims below). -/
theorem count_wednesdays_1985_2011 :
    count_wednesdays ("1985-09-10") ("2011-10-02") = "1360" := by
  rw [count_wednesdays_ymd ("1985-09-10") ("2011-10-02") ⟨1985, 9, 10⟩ ⟨2011, 10, 2⟩ rfl rfl]
  rw [wedCount_closed]
  decide

/-- Counterexample for C4 as frozen: on the range 1985-09-10 to
2011-10-02 the handler does not return "1357" (it returns "1360", which
is the true Wednesday count of that inclusive range). -/
theorem C4_wednesday_1357_counterexample :
    count_wednesdays ("1985-09-10") ("2011-10-02") ≠ "1357" := by
  rw [count_wednesdays_1985_2011]
  decide

/-- C4 (amended): for every pair of valid dates rendered in `YYYY-MM-DD`
format, or both rendered in `MM/DD/YYYY` format, the handler returns the
decimal string of the number of days in the inclusive ordinal range whose
weekday is Wednesday, equal to the independently computed reference
count; on the concrete range 1985-09-10 to 2011-10-02 it returns "1360"
(not "1357" as the specification's scenario says). -/
theorem C4_wednesday_count_matches_reference (d1 d2 : PyDate)
    (h1 : ValidPyDate d1) (h2 : ValidPyDate d2) :
    count_wednesdays (renderYMD d1) (renderYMD d2) = toString (refWedCount d1 d2) ∧
    count_wednesdays (renderMDY d1) (renderMDY d2) = toString (refWedCount d1 d2) ∧
    count_wednesdays ("1985-09-10") ("2011-10-02") = "1360" := by
  refine ⟨?_, ?_, count_wednesdays_1985_2011⟩
  · rw [count_wednesdays_ymd _ _ d1 d2 (parseYMD_render d1 h1) (parseYMD_render d2 h2),
      wedCount_eq_ref]
  · rw [count_wednesdays_mdy _ _ d1 d2 (parseYMD_renderMDY d1) (parseYMD_renderMDY d2)
      (parseMDY_render d1 h1) (parseMDY_render d2 h2), wedCount_eq_ref]

/-- Witness for C4 at the scenario dates. -/
theorem C4_wednesday_count_matches_reference_witness :
    ValidPyDate ⟨1985, 9, 10⟩ ∧ ValidPyDate ⟨2011, 10, 2⟩ ∧
    count_wednesdays (renderYMD ⟨1985, 9, 10⟩) (renderYMD ⟨2011, 10, 2⟩) =
      toString (refWedCount ⟨1985, 9, 10⟩ ⟨2011, 10, 2⟩) := by
  refine ⟨by decide, by decide, ?_⟩
  exact (C4_wednesday_count_matches_reference ⟨1985, 9, 10⟩ ⟨2011, 10, 2⟩
    (by decide) (by decide)).1

/-- Counterexample for C5 as frozen: swapping the two date arguments does
change the handler's result on a concrete valid pair (the reversed range
counts zero days, because the loop body never runs when start > end). -/
theorem C5_swap_changes_result :
    count_wednesdays ("2011-10-02") ("1985-09-10") ≠
      count_wednesdays ("1985-09-10") ("2011-10-02") := by
  have hswap : count_wednesdays ("2011-10-02") ("1985-09-10") = "0" := by
    rw [count_wednesdays_ymd ("2011-10-02") ("1985-09-10") ⟨2011, 10, 2⟩ ⟨1985, 9, 10⟩ rfl rfl]
    rw [wedCount_closed]
    decide
  rw [hswap, count_wednesdays_1985_2011]
  decide

/-- C5 (amended): for any two valid dates, changing both arguments'
format between `YYYY-MM-DD` and `MM/DD/YYYY` does not change the returned
count; swapping the two dates, however, is not neutral: whenever the
first date is after the second, the handler returns "0" rather than the
count of the non-empty reversed range. -/
theorem C5_format_invariance_swap_zero (d1 d2 : PyDate)
    (h1 : ValidPyDate d1) (h2 : ValidPyDate d2) :
    count_wednesdays (renderYMD d1) (renderYMD d2) =
      count_wednesdays (renderMDY d1) (renderMDY d2) ∧
    (toOrdinal d2 < toOrdinal d1 →
      count_wednesdays (renderYMD d1) (renderYMD d2) = "0") := by
  constructor
  · rw [count_wednesdays_ymd _ _ d1 d2 (parseYMD_render d1 h1) (parseYMD_render d2 h2),
      count_wednesdays_mdy _ _ d1 d2 (parseYMD_renderMDY d1) (parseYMD_renderMDY d2)
        (parseMDY_render d1 h1) (parseMDY_render d2 h2)]
  · intro hlt
    rw [count_wednesdays_ymd _ _ d1 d2 (parseYMD_render d1 h1) (parseYMD_render d2 h2),
      wedCount_closed]
    have hz : (toOrdinal d2 + 4) / 7 - (toOrdinal d1 + 3) / 7 = 0 := by omega
    rw [hz]
    decide

/-- Witness for C5 (amended) on a concrete reversed pair. -/
theorem C5_format_invariance_swap_zero_witness :
    ValidPyDate ⟨2020, 1, 2⟩ ∧ ValidPyDate ⟨2020, 1, 1⟩ ∧
    toOrdinal ⟨2020, 1, 1⟩ < toOrdinal ⟨2020, 1, 2⟩ ∧
    count_wednesdays (renderYMD ⟨2020, 1, 2⟩) (renderYMD ⟨2020, 1, 1⟩) = "0" := by
  refine ⟨by decide, by decide, by decide, ?_⟩
  exact (C5_format_invariance_swap_zero ⟨2020, 1, 2⟩ ⟨2020, 1, 1⟩
    (by decide) (by decide)).2 (by decide)

/-! ## `CommandHandler._execute_commands`
(src/app/handlers/command_handler.py)

Process spawning is abstracted: the embedding returns either the error
string the Python function would return from its validation (or from the
`IndexError`/`AttributeError` its outer `except` converts), or the list
of argv vectors that would be handed to `subprocess.run`, stage by
stage.  Exit codes and captured output are outside the model (a nonzero
exit aborts later stages with a different error string; that cannot make
an unvalidated argv run, so the validation claims are unaffected). -/

/-- One entry of `ALLOWED_COMMANDS`.  `allowed_files` is carried for
fidelity to the source dictionary, although `_execute_commands` never
reads it. -/
structure AllowedCfg where
  allowed_args : List String
  allowed_files : List String
deriving DecidableEq

/-- The `ALLOWED_COMMANDS` table. -/
def ALLOWED_COMMANDS : List (String × AllowedCfg) :=
  [("npx", ⟨["-y", "prettier@3.4.2"], [".md", ".js", ".json", ".html", ".css"]⟩),
   ("sha256sum", ⟨[], ["*"]⟩)]

/-- Dictionary lookup in `ALLOWED_COMMANDS`. -/
def lookupCmd (c : String) : Option AllowedCfg :=
  match ALLOWED_COMMANDS.find? (fun p => p.1 = c) with
  | some p => some p.2
  | none => none

/-- Replace the file placeholder tokens with the uploaded file name. -/
def substFile (file_name p : String) : String :=
  if p = "$FILE" || p = "\x7bfile\x7d" then file_name else p

/-- The argument filter of `_execute_commands`: keep the filename,
allow-listed or `--`-prefixed arguments; abort on an `npx` argument
containing `@` with no allow-listed package substring; silently drop
everything else. -/
def buildArgs (command file_name : String) (cfg : AllowedCfg) :
    List String → Except String (List String)
  | [] => .ok []
  | arg :: rest =>
    if arg = file_name then
      (buildArgs command file_name cfg rest).map (fun r => arg :: r)
    else if arg ∈ cfg.allowed_args || arg.data.take 2 = ('-' :: ['-']) then
      (buildArgs command file_name cfg rest).map (fun r => arg :: r)
    else if command = "npx" && isSubL (("@").data) arg.data then
      if cfg.allowed_args.any (fun pkg => isSubL pkg.data arg.data) then
        (buildArgs command file_name cfg rest).map (fun r => arg :: r)
      else
        .error ("Error: Package \x27" ++ arg ++ "\x27 is not allowed for security reasons.")
    else
      buildArgs command file_name cfg rest

/-- Validation of one pipeline stage: split on whitespace (an empty
stage raises `IndexError`, caught by the outer `except`), take the
program name before placeholder substitution, require it on the
allow-list, and filter the substituted arguments. -/
def processOneCmd (file_name cmd_str : String) : Except String (List String) :=
  match (pySplitWsL cmd_str.data).map String.mk with
  | [] => .error "Error executing commands: list index out of range"
  | command :: args =>
    match lookupCmd command with
    | none => .error ("Error: Command \x27" ++ command ++ "\x27 is not allowed for security reasons.")
    | some cfg =>
      (buildArgs command file_name cfg (args.map (substFile file_name))).map
        (fun r => command :: r)

/-- Validate the stages left to right, stopping at the first error. -/
def execStages (file_name : String) : List String → Except String (List (List String))
  | [] => .ok []
  | c :: rest =>
    match processOneCmd file_name c with
    | .error e => .error e
    | .ok v =>
      match execStages file_name rest with
      | .error e => .error e
      | .ok vs => .ok (v :: vs)

/-- Embedding of `CommandHandler._execute_commands` (an empty pipeline
reaches `result.strip()` with `result = None`, whose `AttributeError`
the outer `except` converts). -/
def execute_commands (commands : List String) (file_name : String) :
    Except String (List (List String)) :=
  match commands with
  | [] => .error "Error executing commands: \x27NoneType\x27 object has no attribute \x27strip\x27"
  | _ => execStages file_name commands

/-- The program name of a pipeline stage: the first whitespace token. -/
def progOf (cmd_str : String) : Option String :=
  ((pySplitWsL cmd_str.data).map String.mk).head?

/-- An argument the filter may let through for `command`. -/
def ArgAllowed (command file_name : String) (cfg : AllowedCfg) (arg : String) : Prop :=
  arg = file_name ∨ arg ∈ cfg.allowed_args ∨ arg.data.take 2 = ('-' :: ['-']) ∨
    (command = "npx" ∧ cfg.allowed_args.any (fun pkg => isSubL pkg.data arg.data) = true)

/-! ### Lemmas and claim C1 -/

/-- Every argument the filter keeps is the filename or allow-listed. -/
theorem buildArgs_sound (command file_name : String) (cfg : AllowedCfg) :
    ∀ (args r : List String), buildArgs command file_name cfg args = .ok r →
      ∀ a ∈ r, ArgAllowed command file_name cfg a := by
  intro args
  induction args with
  | nil =>
    intro r h a ha
    simp only [buildArgs] at h
    cases h
    simp at ha
  | cons arg rest ih =>
    intro r h a ha
    simp only [buildArgs] at h
    split_ifs at h with hf hal hnpx hpkg
    · rcases hb : buildArgs command file_name cfg rest with e | r'
      · rw [hb] at h; simp [Except.map] at h
      · rw [hb] at h
        simp only [Except.map, Except.ok.injEq] at h
        subst h
        rcases List.mem_cons.mp ha with rfl | ha'
        · exact Or.inl hf
        · exact ih r' hb a ha'
    · rcases hb : buildArgs command file_name cfg rest with e | r'
      · rw [hb] at h; simp [Except.map] at h
      · rw [hb] at h
        simp only [Except.map, Except.ok.injEq] at h
        subst h
        rcases List.mem_cons.mp ha with rfl | ha'
        · simp only [Bool.or_eq_true, decide_eq_true_eq] at hal
          rcases hal with h1 | h1
          · exact Or.inr (Or.inl h1)
          · exact Or.inr (Or.inr (Or.inl h1))
        · exact ih r' hb a ha'
    · rcases hb : buildArgs command file_name cfg rest with e | r'
      · rw [hb] at h; simp [Except.map] at h
      · rw [hb] at h
        simp only [Except.map, Except.ok.injEq] at h
        subst h
        rcases List.mem_cons.mp ha with rfl | ha'
        · simp only [Bool.and_eq_true, decide_eq_true_eq] at hnpx
          exact Or.inr (Or.inr (Or.inr ⟨hnpx.1, hpkg⟩))
        · exact ih r' hb a ha'
    · exact ih r h a ha

/-- Shape of one validated stage. -/
theorem processOneCmd_sound (file_name cmd_str : String) (v : List String)
    (h : processOneCmd file_name cmd_str = .ok v) :
    ∃ command args cfg, v = command :: args ∧ lookupCmd command = some cfg ∧
      ∀ a ∈ args, ArgAllowed command file_name cfg a := by
  unfold processOneCmd at h
  split at h
  · cases h
  case h_2 command args0 hsp =>
    split at h
    · cases h
    case h_2 cfg hlk =>
      rcases hb : buildArgs command file_name cfg (args0.map (substFile file_name)) with e | r
      · rw [hb] at h; cases h
      · rw [hb] at h
        simp only [Except.map, Except.ok.injEq] at h
        exact ⟨command, r, cfg, h.symm, hlk,
          fun a ha => buildArgs_sound command file_name cfg _ r hb a ha⟩

/-- Shape of every stage of a fully validated pipeline. -/
theorem execStages_sound (file_name : String) :
    ∀ (cmds : List String) (argvs : List (List String)),
      execStages file_name cmds = .ok argvs →
      ∀ argv ∈ argvs, ∃ command args cfg, argv = command :: args ∧
        lookupCmd command = some cfg ∧
        ∀ a ∈ args, ArgAllowed command file_name cfg a := by
  intro cmds
  induction cmds with
  | nil =>
    intro argvs h argv hm
    simp only [execStages] at h
    cases h
    simp at hm
  | cons c rest ih =>
    intro argvs h argv hm
    simp only [execStages] at h
    split at h
    · cases h
    case h_2 v hp =>
      split at h
      · cases h
      case h_2 vs hr =>
        cases h
        rcases List.mem_cons.mp hm with rfl | hm'
        · exact processOneCmd_sound file_name c argv hp
        · exact ih vs hr argv hm'

/-- The stage validator errors whenever some stage names an unknown
program. -/
theorem execStages_err (file_name : String) :
    ∀ (cmds : List String),
      (∃ c ∈ cmds, ∃ p, progOf c = some p ∧ lookupCmd p = none) →
      ∀ argvs, execStages file_name cmds ≠ .ok argvs := by
  intro cmds
  induction cmds with
  | nil =>
    intro h
    simp at h
  | cons c rest ih =>
    intro h argvs hok
    simp only [execStages] at hok
    split at hok
    · cases hok
    case h_2 v hp =>
      split at hok
      · cases hok
      case h_2 vs hr =>
        rcases h with ⟨c', hc', p, hprog, hlk⟩
        rcases List.mem_cons.mp hc' with rfl | hmem
        · unfold processOneCmd at hp
          unfold progOf at hprog
          split at hp
          · cases hp
          case h_2 command args0 hsp =>
            rw [hsp] at hprog
            simp only [List.head?_cons, Option.some.injEq] at hprog
            subst hprog
            split at hp
            · cases hp
            case h_2 cfg hlk2 =>
              rw [hlk] at hlk2
              cases hlk2
        · exact ih ⟨c', hmem, p, hprog, hlk⟩ vs hr

/-- Counterexample for C1 as frozen: the argument `foo` is neither the
uploaded filename (`data.txt`) nor allow-listed for `sha256sum`, yet the
pipeline does not abort — it is silently dropped and the stage runs as
plain `sha256sum`. -/
theorem C1_silent_drop_counterexample :
    execute_commands [("sha256sum foo")] ("data.txt") =
      .ok [[("sha256sum")]] := by
  rfl

/-- C1 (amended): (1) in every fully validated pipeline, every spawned
argv names an allow-listed program and carries only arguments that are
the uploaded filename, allow-listed, `--`-prefixed, or an `npx` argument
containing an allow-listed package substring — so no allow-listed
command is ever executed with a disallowed argument; (2) a first stage
whose program name is unknown aborts with the explicit not-allowed error
string; (3) an unknown program name in any stage prevents the pipeline
from validating.  However, a disallowed argument of an allow-listed
command does NOT abort the pipeline: it is silently dropped (see the
counterexample), except for `npx` arguments containing `@`, which do
abort. -/
theorem C1_allowlist_enforcement :
    (∀ (commands : List String) (file_name : String) (argvs : List (List String)),
      execute_commands commands file_name = .ok argvs →
      ∀ argv ∈ argvs, ∃ command args cfg, argv = command :: args ∧
        lookupCmd command = some cfg ∧
        ∀ a ∈ args, ArgAllowed command file_name cfg a) ∧
    (∀ (c : String) (cs : List String) (file_name p : String),
      progOf c = some p → lookupCmd p = none →
      execute_commands (c :: cs) file_name =
        .error ("Error: Command \x27" ++ p ++ "\x27 is not allowed for security reasons.")) ∧
    (∀ (commands : List String) (file_name : String),
      (∃ c ∈ commands, ∃ p, progOf c = some p ∧ lookupCmd p = none) →
      ∀ argvs, execute_commands commands file_name ≠ .ok argvs) := by
  refine ⟨?_, ?_, ?_⟩
  · intro commands file_name argvs h argv hm
    cases commands with
    | nil => cases h
    | cons c rest => exact execStages_sound file_name (c :: rest) argvs h argv hm
  · intro c cs file_name p hprog hlk
    unfold progOf at hprog
    rcases hsp : (pySplitWsL c.data).map String.mk with _ | ⟨command, args0⟩
    · rw [hsp] at hprog; cases hprog
    · rw [hsp] at hprog
      simp only [List.head?_cons, Option.some.injEq] at hprog
      subst hprog
      have hp : processOneCmd file_name c =
          .error ("Error: Command \x27" ++ command ++ "\x27 is not allowed for security reasons.") := by
        unfold processOneCmd
        simp only [hsp, hlk]
      show execStages file_name (c :: cs) =
        .error ("Error: Command \x27" ++ command ++ "\x27 is not allowed for security reasons.")
      unfold execStages
      rw [hp]
  · intro commands file_name hex argvs hok
    cases commands with
    | nil => cases hok
    | cons c rest => exact execStages_err file_name (c :: rest) hex argvs hok

/-- Witness for C1 (amended): a validated two-stage pipeline whose argvs
are all allow-listed, and an unknown program aborting with the explicit
error. -/
theorem C1_allowlist_enforcement_witness :
    execute_commands [("npx -y prettier@3.4.2 $FILE"), ("sha256sum")] ("d.md") =
      .ok [[("npx"), ("-y"), ("prettier@3.4.2"), ("d.md")], [("sha256sum")]] ∧
    (∀ argv ∈ [[("npx"), ("-y"), ("prettier@3.4.2"), ("d.md")], [("sha256sum")]],
      ∃ command args cfg, argv = command :: args ∧
        lookupCmd command = some cfg ∧
        ∀ a ∈ args, ArgAllowed command ("d.md") cfg a) ∧
    execute_commands [("evil rm")] ("d.md") =
      .error ("Error: Command \x27evil\x27 is not allowed for security reasons.") := by
  refine ⟨by rfl, ?_, ?_⟩
  · exact C1_allowlist_enforcement.1 [("npx -y prettier@3.4.2 $FILE"), ("sha256sum")]
      ("d.md") _ (by rfl)
  · exact C1_allowlist_enforcement.2.1 ("evil rm") [] ("d.md") ("evil") (by rfl) (by rfl)

/-! ## `QuestionProcessor.process_question`, `_process_file`
(src/app/question_processor.py) and the `/api/` endpoint
(src/app/main.py)

The AI calls, the handlers that keep their own outermost `except`, and
the file-system operations are oracles collected in `RouterEnv`; an
oracle whose Python counterpart can raise is an `Except` (its `.error`
is the raised exception's message).  `_analyze_question_with_ai` never
raises (all its failure paths return an error-carrying analysis), so its
result is a plain `Analysis`.  The classifier's structured arguments are
modelled by the typed record the declared JSON schema describes. -/

/-- The classifier's parsed structured output plus the `file_content`
entry the Router may attach. -/
structure Analysis where
  questionType : Option String := none
  actions : List String := []
  directAnswer : Option String := none
  calculationType : Option String := none
  dateRange : Option (List String) := none
  jsonData : Option String := none
  columnToExtract : Option String := none
  errorMsg : Option String := none
  fileContent : Option String := none
deriving DecidableEq

/-- Oracles for everything `process_question` and the endpoint call out
to.  `extractZipResult` and `saveUploadResult` may raise (no enclosing
`try` at their call sites); the rest catch their own exceptions and
return strings. -/
structure RouterEnv where
  analyzeResult : Analysis
  npxPrettierResult : String
  multiCursorResult : String
  commandResult : String
  jsonSortResult : String
  finalAnswerResult : Analysis → String
  extractZipResult : Except String String
  findCsvResult : Option String
  csvExtractResult : String
  readFileResult : Except String String
  saveUploadResult : Except String String

/-- Boolean suffix test (model of `str.endswith`). -/
def endsWithL (suffix l : List Char) : Bool :=
  isPrefixOfL suffix.reverse l.reverse

/-- The generic branch of `_process_file`: read the file inside `try`
(exceptions become an "Error reading file" string) and truncate at 8000
characters. -/
def genericFileRead (env : RouterEnv) : Except String String :=
  match env.readFileResult with
  | .ok content =>
    if content.data.length > 8000 then
      .ok (String.mk (content.data.take 8000) ++ "\n...[content truncated]...")
    else .ok content
  | .error e => .ok ("Error reading file: " ++ e)

/-- Embedding of `QuestionProcessor._process_file`.  In the
`csv_extraction`/ZIP branch, `extract_from_zip` and
`find_file_by_extension` are awaited outside any `try`, so a raised
exception propagates (the `.error` case); the requested column only
parameterises the `extract_from_csv` oracle. -/
def process_file (env : RouterEnv) (file_path : String) (analysis : Analysis) :
    Except String String :=
  if analysis.questionType.getD "unknown" = "csv_extraction" then
    if endsWithL ((".zip").data) (pyLowerL file_path.data) then
      match env.extractZipResult with
      | .error e => .error e
      | .ok _ =>
        match env.findCsvResult with
        | some _ => .ok env.csvExtractResult
        | none => genericFileRead env
    else if endsWithL ((".csv").data) (pyLowerL file_path.data) then
      .ok env.csvExtractResult
    else genericFileRead env
  else genericFileRead env

/-- Step 8-9 of the Router: non-empty `direct_answer` is returned
verbatim, otherwise the finalize call answers. -/
def routerDirect (env : RouterEnv) (analysis : Analysis) : String :=
  match analysis.directAnswer with
  | some da => if da ≠ "" then da else env.finalAnswerResult analysis
  | none => env.finalAnswerResult analysis

/-- Step 7 of the Router: specialized calculations (Wednesday counting
through the embedded date handler, JSON sorting through its oracle),
falling through when preconditions fail. -/
def routerCalc (env : RouterEnv) (analysis : Analysis) : String :=
  if ("specialized_calculation") ∈ analysis.actions then
    match analysis.calculationType with
    | some ct =>
      if ct = "count_wednesdays" then
        match analysis.dateRange with
        | some [d1, d2] => count_wednesdays d1 d2
        | _ => routerDirect env analysis
      else if ct = "json_sorting" then
        match analysis.jsonData with
        | some js => if js ≠ "" then env.jsonSortResult else routerDirect env analysis
        | none => routerDirect env analysis
      else routerDirect env analysis
    | none => routerDirect env analysis
  else routerDirect env analysis

/-- Step 6 of the Router: the `process_json` dispatch, which only fires
when the multi-cursor/jsonhash phrasing is present. -/
def routerJson (env : RouterEnv) (ql : List Char) (file_path : Option String)
    (analysis : Analysis) : String :=
  if ("process_json") ∈ analysis.actions ∧ file_path.isSome then
    if isSubL (("multi-cursor").data) ql ∧ isSubL (("jsonhash").data) ql then
      env.multiCursorResult
    else routerCalc env analysis
  else routerCalc env analysis

/-- Steps 5 onward of the Router (after file pre-processing): command
dispatch is terminal, then the later steps. -/
def routerAfterFile (env : RouterEnv) (ql : List Char) (file_path : Option String)
    (analysis : Analysis) : String :=
  if ("execute_command") ∈ analysis.actions then env.commandResult
  else routerJson env ql file_path analysis

/-- The first literal short-circuit: npx, prettier and sha256sum all
mentioned (case-insensitively). -/
def npxShortCircuit (question : String) : Bool :=
  isSubL (("npx").data) (pyLowerL question.data) &&
  isSubL (("prettier").data) (pyLowerL question.data) &&
  isSubL (("sha256sum").data) (pyLowerL question.data)

/-- The second literal short-circuit: multi-cursor and json mentioned
together with jsonhash or hash. -/
def multiCursorShortCircuit (question : String) : Bool :=
  isSubL (("multi-cursor").data) (pyLowerL question.data) &&
  isSubL (("json").data) (pyLowerL question.data) &&
  (isSubL (("jsonhash").data) (pyLowerL question.data) ||
   isSubL (("hash").data) (pyLowerL question.data))

/-- Embedding of `QuestionProcessor.process_question`: the two literal
short-circuits (requiring an uploaded file) run before anything else and
return their handler's result; only the remaining path consults the
classifier result, pre-processes the file (possibly raising), and walks
the dispatch chain.  `.error` is an exception escaping the Router, which
has no outermost `try`. -/
def process_question (env : RouterEnv) (question : String)
    (file_path : Option String) : Except String String :=
  let ql := pyLowerL question.data
  if file_path.isSome && npxShortCircuit question then
    .ok env.npxPrettierResult
  else if file_path.isSome && multiCursorShortCircuit question then
    .ok env.multiCursorResult
  else
    match file_path with
    | some fp =>
      if ("process_file") ∈ env.analyzeResult.actions then
        match process_file env fp env.analyzeResult with
        | .error e => .error e
        | .ok fc =>
          .ok (routerAfterFile env ql file_path
            (if fc ≠ "" then { env.analyzeResult with fileContent := some fc }
             else env.analyzeResult))
      else .ok (routerAfterFile env ql file_path env.analyzeResult)
    | none => .ok (routerAfterFile env ql file_path env.analyzeResult)

/-- A raised FastAPI `HTTPException`. -/
structure HTTPError where
  status : Nat
  detail : String
deriving DecidableEq

/-- The body of the endpoint's `try`: save the upload (may raise), then
run the Router (may raise). -/
def submit_inner (env : RouterEnv) (question : String) (file : Option String) :
    Except String String :=
  match file with
  | some _ =>
    match env.saveUploadResult with
    | .error e => .error e
    | .ok tmp => process_question env question (some tmp)
  | none => process_question env question none

/-- Embedding of the `/api/` endpoint `answer_question` of
src/app/main.py: any exception is caught and re-raised as
`HTTPException(500, "Error processing question: ...")` — the `.error`
case is a raised HTTP error, not an answer string.  (The `finally`
cleanup is file-system bookkeeping outside the model.) -/
def answer_question (env : RouterEnv) (question : String) (file : Option String) :
    Except HTTPError String :=
  match submit_inner env question file with
  | .ok a => .ok a
  | .error e => .error ⟨500, "Error processing question: " ++ e⟩

/-! ### Claims C2 and C3 -/

/-- Environment exhibiting a raised exception: the classifier routes to
`csv_extraction` with `process_file`, the uploaded `.zip` is invalid, so
`extract_from_zip` raises and nothing in the Router catches it. -/
def envBadZip : RouterEnv :=
  { analyzeResult := { questionType := some ("csv_extraction"), actions := [("process_file")] }
    npxPrettierResult := ""
    multiCursorResult := ""
    commandResult := ""
    jsonSortResult := ""
    finalAnswerResult := fun _ => ""
    extractZipResult := .error ("File is not a zip file")
    findCsvResult := none
    csvExtractResult := ""
    readFileResult := .ok ""
    saveUploadResult := .ok ("temp_data.zip") }

/-- Counterexample for C2 as frozen: on a reachable input (a question
classified `csv_extraction` with a corrupt `.zip` upload) the inbound
operation does not return an answer string — the exception from
`extract_from_zip` escapes the Router, and the endpoint re-raises it as
`HTTPException(500, ...)`. -/
theorem C2_endpoint_raises_counterexample :
    answer_question envBadZip
        ("What value is in the answer column of the uploaded archive?")
        (some ("data.zip")) =
      .error ⟨500, "Error processing question: File is not a zip file"⟩ := by
  rfl

/-- C2 (amended): the inbound submit operation never lets a raw
exception escape: for every environment, question and optional file it
either returns an answer string or raises `HTTPException` with status
500 and a detail beginning "Error processing question: " — an HTTP
error response, not an answer string.  The Router itself has no
outermost catch; the AI calls and the individual handlers catch their
own errors, but `_process_file`'s ZIP branch can raise through it. -/
theorem C2_submit_returns_or_http500 (env : RouterEnv) (question : String)
    (file : Option String) :
    (∃ a, answer_question env question file = .ok a) ∨
    (∃ d, answer_question env question file =
      .error ⟨500, ("Error processing question: ") ++ d⟩) := by
  cases h : submit_inner env question file with
  | ok a =>
    left
    exact ⟨a, by unfold answer_question; rw [h]⟩
  | error e =>
    right
    exact ⟨e, by unfold answer_question; rw [h]⟩

/-- C3: when a question (with a file present) matches the npx/prettier/
sha256sum literal pattern, the Router returns the canonical command
short-circuit handler's result, and likewise the multi-cursor/json/hash
pattern returns the multi-cursor handler's result; in both cases the
result does not depend on the classifier's output for ANY classifier
answer — the Intent Classifier is never consulted (the short-circuits
return before `_analyze_question_with_ai` is called). -/
theorem C3_short_circuits_preempt_classifier (env : RouterEnv)
    (question : String) (f : String) :
    (npxShortCircuit question = true →
      process_question env question (some f) = .ok env.npxPrettierResult ∧
      ∀ a : Analysis,
        process_question { env with analyzeResult := a } question (some f) =
          .ok env.npxPrettierResult) ∧
    (npxShortCircuit question = false → multiCursorShortCircuit question = true →
      process_question env question (some f) = .ok env.multiCursorResult ∧
      ∀ a : Analysis,
        process_question { env with analyzeResult := a } question (some f) =
          .ok env.multiCursorResult) := by
  constructor
  · intro h
    constructor
    · unfold process_question
      simp [h]
    · intro a
      unfold process_question
      simp [h]
  · intro h1 h2
    constructor
    · unfold process_question
      simp [h1, h2]
    · intro a
      unfold process_question
      simp [h1, h2]

/-- Witness for C3: both short-circuits fire on concrete questions and
return the respective oracle results. -/
theorem C3_short_circuits_preempt_classifier_witness :
    npxShortCircuit ("Run npx with prettier and then sha256sum. What is the output?") = true ∧
    process_question
      { analyzeResult := {}
        npxPrettierResult := ("npxout")
        multiCursorResult := ("mcout")
        commandResult := ""
        jsonSortResult := ""
        finalAnswerResult := fun _ => ""
        extractZipResult := .ok ""
        findCsvResult := none
        csvExtractResult := ""
        readFileResult := .ok ""
        saveUploadResult := .ok "" }
      ("Run npx with prettier and then sha256sum. What is the output?")
      (some ("f.md")) = .ok ("npxout") ∧
    multiCursorShortCircuit
      ("Use multi-cursor edits over the file, convert to json, give the jsonhash value.") = true ∧
    process_question
      { analyzeResult := {}
        npxPrettierResult := ("npxout")
        multiCursorResult := ("mcout")
        commandResult := ""
        jsonSortResult := ""
        finalAnswerResult := fun _ => ""
        extractZipResult := .ok ""
        findCsvResult := none
        csvExtractResult := ""
        readFileResult := .ok ""
        saveUploadResult := .ok "" }
      ("Use multi-cursor edits over the file, convert to json, give the jsonhash value.")
      (some ("f.txt")) = .ok ("mcout") := by
  refine ⟨by decide, ?_, by decide, ?_⟩
  · exact ((C3_short_circuits_preempt_classifier _ _ ("f.md")).1 (by decide)).1
  · exact ((C3_short_circuits_preempt_classifier _ _ ("f.txt")).2 (by decide) (by decide)).1

/-! ## `JSONHandler.sort_json` (src/app/handlers/json_handler.py)

`json.loads` is abstracted as before (the handler is embedded from the
parsed value onward; feeding the handler its own output is modelled by
applying it to the value that output denotes).  Python's `sorted` with a
key function first materialises all keys left to right (raising
`AttributeError` on `x.get` of a non-dict), then sorts the decorated
list stably; timsort is modelled by a stable insertion sort — a stable
sort is uniquely determined by the comparator, so this is observationally
equal wherever no comparison raises, and on two-element lists (which
always compare their one pair) also for the raised `TypeError`.
Python `==` between two dicts is order-insensitive; here objects compare
as parsed (order-sensitively), which coincides for `json.loads` output
whose equal objects list their keys in the same order — no claim below
exercises object-valued sort keys. -/

mutual

/-- Python `==` on parsed JSON values (`bool` compares as its integer
value, cross-type scalar comparisons are `False`). -/
def pyEqV : JVal → JVal → Bool
  | .jint m, .jint n => m == n
  | .jbool x, .jbool y => x == y
  | .jint m, .jbool y => m == (if y then (1 : Int) else 0)
  | .jbool x, .jint n => (if x then (1 : Int) else 0) == n
  | .jstr s, .jstr t => s == t
  | .jnull, .jnull => true
  | .jarr xs, .jarr ys => pyEqArr xs ys
  | .jobj kvs, .jobj lvs => pyEqObj kvs lvs
  | _, _ => false

def pyEqArr : List JVal → List JVal → Bool
  | [], [] => true
  | x :: xs, y :: ys => pyEqV x y && pyEqArr xs ys
  | _, _ => false

def pyEqObj : List (List Char × JVal) → List (List Char × JVal) → Bool
  | [], [] => true
  | (k, x) :: xs, (l, y) :: ys => k == l && pyEqV x y && pyEqObj xs ys
  | _, _ => false

end

/-- Lexicographic `<` on Python strings (code-point order). -/
def strLtL : List Char → List Char → Bool
  | [], [] => false
  | [], _ :: _ => true
  | _ :: _, [] => false
  | a :: as, b :: bs => if a = b then strLtL as bs else decide (a < b)

/-- The `TypeError` message of an unsupported `a < b`. -/
def ltErrMsg (a b : JVal) : List Char :=
  (("\x27<\x27 not supported between instances of \x27").data ++ pyTypeName a) ++
    (("\x27 and \x27").data ++ pyTypeName b) ++ ("\x27").data

mutual

/-- Python `<` on parsed JSON values: numbers (with `bool` as integer)
and strings compare, lists compare lexicographically, everything else
raises `TypeError`. -/
def pyLtV : JVal → JVal → Except (List Char) Bool
  | .jint m, .jint n => .ok (decide (m < n))
  | .jbool x, .jbool y => .ok (decide ((if x then (1 : Int) else 0) < if y then 1 else 0))
  | .jint m, .jbool y => .ok (decide (m < if y then 1 else 0))
  | .jbool x, .jint n => .ok (decide ((if x then (1 : Int) else 0) < n))
  | .jstr s, .jstr t => .ok (strLtL s t)
  | .jarr xs, .jarr ys => pyLtArr xs ys
  | a, b => .error (ltErrMsg a b)

def pyLtArr : List JVal → List JVal → Except (List Char) Bool
  | [], [] => .ok false
  | [], _ :: _ => .ok true
  | _ :: _, [] => .ok false
  | x :: xs, y :: ys => if pyEqV x y then pyLtArr xs ys else pyLtV x y

end

/-- The `AttributeError` message of `x.get(...)` on a non-dict. -/
def attrErrMsg (x : JVal) : List Char :=
  (("\x27").data ++ pyTypeName x) ++ ("\x27 object has no attribute \x27get\x27").data

/-- `x.get('age', 0)` then `x.get('name', '')`, the sort key when both
fields occur in the array. -/
def keyBoth (x : JVal) : Except (List Char) (JVal × JVal) :=
  match x with
  | .jobj kvs =>
    .ok (lookupD kvs (("age").data) (.jint 0), lookupD kvs (("name").data) (.jstr []))
  | _ => .error (attrErrMsg x)

/-- `x.get('age', 0)`, the sort key when only `age` occurs. -/
def keyAge (x : JVal) : Except (List Char) JVal :=
  match x with
  | .jobj kvs => .ok (lookupD kvs (("age").data) (.jint 0))
  | _ => .error (attrErrMsg x)

/-- `x.get('name', '')`, the sort key when only `name` occurs. -/
def keyName (x : JVal) : Except (List Char) JVal :=
  match x with
  | .jobj kvs => .ok (lookupD kvs (("name").data) (.jstr []))
  | _ => .error (attrErrMsg x)

/-- Python tuple comparison on the two-field key: compare the first
components with `==`, then the responsible component with `<`. -/
def pairLt (p q : JVal × JVal) : Except (List Char) Bool :=
  if pyEqV p.1 q.1 then pyLtV p.2 q.2 else pyLtV p.1 q.1

/-- Compute all sort keys left to right (Python materialises keys before
sorting). -/
def computeKeys {K : Type} (f : JVal → Except (List Char) K) :
    List JVal → Except (List Char) (List (K × JVal))
  | [] => .ok []
  | x :: xs =>
    match f x with
    | .error e => .error e
    | .ok k =>
      match computeKeys f xs with
      | .error e => .error e
      | .ok rest => .ok ((k, x) :: rest)

/-- Stable insertion with a fallible comparator: walk past `y` while
`y < x`, place `x` before the first `y` with `¬ (y < x)`. -/
def insertE {α E : Type} (lt : α → α → Except E Bool) (x : α) :
    List α → Except E (List α)
  | [] => .ok [x]
  | y :: ys =>
    match lt y x with
    | .error e => .error e
    | .ok true =>
      match insertE lt x ys with
      | .error e => .error e
      | .ok r => .ok (y :: r)
    | .ok false => .ok (x :: y :: ys)

/-- Stable sort with a fallible comparator (insertion sort: the unique
stable sort for the comparator). -/
def sortE {α E : Type} (lt : α → α → Except E Bool) : List α → Except E (List α)
  | [] => .ok []
  | x :: xs =>
    match sortE lt xs with
    | .error e => .error e
    | .ok s => insertE lt x s

/-- `sorted(data, key=f)` with comparator `ltK` on keys. -/
def sortByKey {K : Type} (f : JVal → Except (List Char) K)
    (ltK : K → K → Except (List Char) Bool) (data : List JVal) :
    Except (List Char) (List JVal) :=
  match computeKeys f data with
  | .error e => .error e
  | .ok decorated =>
    match sortE (fun p q => ltK p.1 q.1) decorated with
    | .error e => .error e
    | .ok sorted_pairs => .ok (sorted_pairs.map Prod.snd)

/-- Does any dict element of the array carry this field? (`has_age` /
`has_name` in the source.) -/
def hasField (k : List Char) (data : List JVal) : Bool :=
  data.any (fun it =>
    match it with
    | .jobj kvs => kvs.any (fun p => p.1 = k)
    | _ => false)

/-- The sorted list (or the first exception raised by `sorted`): sort by
`(age, name)` if both fields occur anywhere, else by the one that
occurs, else keep the order. -/
def sortedListOf (data : List JVal) : Except (List Char) (List JVal) :=
  if hasField (("age").data) data && hasField (("name").data) data then
    sortByKey keyBoth pairLt data
  else if hasField (("age").data) data then
    sortByKey keyAge pyLtV data
  else if hasField (("name").data) data then
    sortByKey keyName pyLtV data
  else .ok data

mutual

/-- The model of `json.dumps(..., separators=(',', ':'))`: compact
serialisation with no whitespace. -/
def jsonDumpsC : JVal → List Char
  | .jnull => ("null").data
  | .jbool true => ("true").data
  | .jbool false => ("false").data
  | .jint n => (toString n).data
  | .jstr s => jsonStrL s
  | .jarr xs => '[' :: joinSep ([',']) (jsonDumpsCArr xs) ++ [']']
  | .jobj kvs => '\x7b' :: joinSep ([',']) (jsonDumpsCObj kvs) ++ ['\x7d']

def jsonDumpsCArr : List JVal → List (List Char)
  | [] => []
  | x :: xs => jsonDumpsC x :: jsonDumpsCArr xs

def jsonDumpsCObj : List (List Char × JVal) → List (List Char)
  | [] => []
  | (k, v) :: rest => (jsonStrL k ++ ':' :: jsonDumpsC v) :: jsonDumpsCObj rest

end

/-- Embedding of `JSONHandler.sort_json` from the parsed value onward:
non-arrays get the typed message, a raising `sorted` is caught into
"Error processing JSON: ...", success is dumped compactly. -/
def sort_json (v : JVal) : String :=
  match v with
  | .jarr data =>
    match sortedListOf data with
    | .ok sorted_data => String.mk (jsonDumpsC (.jarr sorted_data))
    | .error e => String.mk (("Error processing JSON: ").data ++ e)
  | _ => String.mk (("Error: Expected a JSON array, got ").data ++ pyTypeName v)

/-! ### String-order lemmas -/

/-- Lexicographic string order is irreflexive. -/
theorem strLtL_irrefl : ∀ s, strLtL s s = false
  | [] => rfl
  | a :: as => by simp [strLtL, strLtL_irrefl as]

/-- Lexicographic string order is asymmetric. -/
theorem strLtL_asymm : ∀ s t, strLtL s t = true → strLtL t s = false := by
  intro s
  induction s with
  | nil =>
    intro t h
    cases t with
    | nil => cases h
    | cons b bs => rfl
  | cons a as ih =>
    intro t h
    cases t with
    | nil => cases h
    | cons b bs =>
      simp only [strLtL] at h ⊢
      by_cases hab : a = b
      · subst hab
        simp only [if_pos rfl] at h ⊢
        exact ih bs h
      · rw [if_neg hab] at h
        rw [if_neg (fun hba => hab hba.symm)]
        simp only [decide_eq_true_eq] at h
        simp only [decide_eq_false_iff_not]
        exact lt_asymm h

/-- Lexicographic string order is transitive. -/
theorem strLtL_trans : ∀ s t u, strLtL s t = true → strLtL t u = true →
    strLtL s u = true := by
  intro s
  induction s with
  | nil =>
    intro t u h1 h2
    cases t with
    | nil => cases h1
    | cons b bs =>
      cases u with
      | nil => cases h2
      | cons c cs => rfl
  | cons a as ih =>
    intro t u h1 h2
    cases t with
    | nil => cases h1
    | cons b bs =>
      cases u with
      | nil => cases h2
      | cons c cs =>
        simp only [strLtL] at h1 h2 ⊢
        by_cases hab : a = b
        · subst hab
          rw [if_pos rfl] at h1
          by_cases hbc : a = c
          · subst hbc
            rw [if_pos rfl] at h2 ⊢
            exact ih bs cs h1 h2
          · rw [if_neg hbc] at h2 ⊢
            exact h2
        · rw [if_neg hab] at h1
          simp only [decide_eq_true_eq] at h1
          by_cases hbc : b = c
          · subst hbc
            rw [if_neg hab]
            simp only [decide_eq_true_eq]
            exact h1
          · rw [if_neg hbc] at h2
            simp only [decide_eq_true_eq] at h2
            have hac : a < c := lt_trans h1 h2
            rw [if_neg (ne_of_lt hac)]
            simp only [decide_eq_true_eq]
            exact hac

/-- Two strings neither of which precedes the other are equal. -/
theorem strLtL_connex : ∀ s t, strLtL s t = false → strLtL t s = false → s = t := by
  intro s
  induction s with
  | nil =>
    intro t h1 _
    cases t with
    | nil => rfl
    | cons b bs => cases h1
  | cons a as ih =>
    intro t h1 h2
    cases t with
    | nil => cases h2
    | cons b bs =>
      simp only [strLtL] at h1 h2
      by_cases hab : a = b
      · subst hab
        rw [if_pos rfl] at h1 h2
        rw [ih bs h1 h2]
      · rw [if_neg hab] at h1
        rw [if_neg (fun hba => hab hba.symm)] at h2
        simp only [decide_eq_false_iff_not] at h1 h2
        rcases lt_trichotomy a b with h | h | h
        · exact absurd h h1
        · exact absurd h hab
        · exact absurd h h2

/-- Negative transitivity from asymmetry, transitivity and
connexity. -/
theorem negtrans_of {α : Type} (lt : α → α → Bool)
    (htrans : ∀ a b c, lt a b = true → lt b c = true → lt a c = true)
    (hconn : ∀ a b, lt a b = false → lt b a = false → a = b) :
    ∀ a b c, lt a b = false → lt b c = false → lt a c = false := by
  intro a b c h1 h2
  by_contra hac
  simp only [Bool.not_eq_false] at hac
  rcases hcb : lt c b with _ | _
  · have := hconn b c h2 hcb
    subst this
    rw [hac] at h1
    cases h1
  · have := htrans a c b hac hcb
    rw [this] at h1
    cases h1

/-! ### Abstract stable insertion sort -/

/-- Pure stable insertion. -/
def insertPure {α : Type} (lt : α → α → Bool) (x : α) : List α → List α
  | [] => [x]
  | y :: ys => if lt y x then y :: insertPure lt x ys else x :: y :: ys

/-- Pure stable insertion sort. -/
def sortPure {α : Type} (lt : α → α → Bool) : List α → List α
  | [] => []
  | x :: xs => insertPure lt x (sortPure lt xs)

/-- Insertion permutes. -/
theorem insertPure_perm {α : Type} (lt : α → α → Bool) (x : α) :
    ∀ l, (insertPure lt x l).Perm (x :: l) := by
  intro l
  induction l with
  | nil => exact List.Perm.refl _
  | cons y ys ih =>
    simp only [insertPure]
    by_cases h : lt y x = true
    · rw [if_pos h]
      exact (ih.cons y).trans (List.Perm.swap x y ys)
    · rw [if_neg h]

/-- Sorting permutes. -/
theorem sortPure_perm {α : Type} (lt : α → α → Bool) :
    ∀ l, (sortPure lt l).Perm l := by
  intro l
  induction l with
  | nil => exact List.Perm.refl _
  | cons x xs ih =>
    simp only [sortPure]
    exact (insertPure_perm lt x (sortPure lt xs)).trans (ih.cons x)

/-- Insertion preserves sortedness (pairwise non-inversion). -/
theorem insertPure_pairwise {α : Type} (lt : α → α → Bool)
    (hasym : ∀ a b, lt a b = true → lt b a = false)
    (hneg : ∀ a b c, lt a b = false → lt b c = false → lt a c = false)
    (x : α) : ∀ l, l.Pairwise (fun a b => lt b a = false) →
      (insertPure lt x l).Pairwise (fun a b => lt b a = false) := by
  intro l
  induction l with
  | nil =>
    intro _
    simp [insertPure]
  | cons y ys ih =>
    intro hl
    rcases List.pairwise_cons.mp hl with ⟨hy, hys⟩
    simp only [insertPure]
    by_cases h : lt y x = true
    · rw [if_pos h]
      refine List.pairwise_cons.mpr ⟨?_, ih hys⟩
      intro z hz
      rcases List.mem_cons.mp ((insertPure_perm lt x ys).mem_iff.mp hz) with rfl | hz'
      · exact hasym y z h
      · exact hy z hz'
    · rw [if_neg h]
      simp only [Bool.not_eq_true] at h
      refine List.pairwise_cons.mpr ⟨?_, hl⟩
      intro z hz
      rcases List.mem_cons.mp hz with rfl | hz'
      · exact h
      · exact hneg z y x (hy z hz') h

/-- The sort output is pairwise non-inverted. -/
theorem sortPure_pairwise {α : Type} (lt : α → α → Bool)
    (hasym : ∀ a b, lt a b = true → lt b a = false)
    (hneg : ∀ a b c, lt a b = false → lt b c = false → lt a c = false) :
    ∀ l, (sortPure lt l).Pairwise (fun a b => lt b a = false) := by
  intro l
  induction l with
  | nil => simp [sortPure]
  | cons x xs ih => exact insertPure_pairwise lt hasym hneg x _ ih

/-- Sorting a pairwise non-inverted list is the identity. -/
theorem sortPure_of_pairwise {α : Type} (lt : α → α → Bool) :
    ∀ l, l.Pairwise (fun a b => lt b a = false) → sortPure lt l = l := by
  intro l
  induction l with
  | nil => intro _; rfl
  | cons x xs ih =>
    intro hl
    rcases List.pairwise_cons.mp hl with ⟨hx, hxs⟩
    simp only [sortPure, ih hxs]
    cases xs with
    | nil => rfl
    | cons y ys =>
      simp only [insertPure]
      rw [if_neg (by rw [hx y (List.mem_cons_self y ys)]; simp)]

/-- Sorting twice is sorting once. -/
theorem sortPure_idem {α : Type} (lt : α → α → Bool)
    (hasym : ∀ a b, lt a b = true → lt b a = false)
    (hneg : ∀ a b c, lt a b = false → lt b c = false → lt a c = false)
    (l : List α) : sortPure lt (sortPure lt l) = sortPure lt l :=
  sortPure_of_pairwise lt _ (sortPure_pairwise lt hasym hneg l)

/-- Inserting an element of a key class keeps it ahead of the class. -/
theorem insertPure_filter_pos {α : Type} (lt : α → α → Bool) (q : α → Bool)
    (hq : ∀ a b, q a = true → q b = true → lt a b = false)
    (x : α) (hx : q x = true) :
    ∀ l, (insertPure lt x l).filter q = x :: l.filter q := by
  intro l
  induction l with
  | nil => simp [insertPure, hx]
  | cons y ys ih =>
    simp only [insertPure]
    by_cases h : lt y x = true
    · rw [if_pos h]
      rcases hy : q y with _ | _
      · simp [List.filter, hy, ih]
      · rw [hq y x hy hx] at h
        cases h
    · rw [if_neg h]
      simp [List.filter, hx]

/-- Inserting an element outside the class leaves its filter alone. -/
theorem insertPure_filter_neg {α : Type} (lt : α → α → Bool) (q : α → Bool)
    (x : α) (hx : q x = false) :
    ∀ l, (insertPure lt x l).filter q = l.filter q := by
  intro l
  induction l with
  | nil => simp [insertPure, hx]
  | cons y ys ih =>
    simp only [insertPure]
    by_cases h : lt y x = true
    · rw [if_pos h]
      rcases hy : q y with _ | _
      · simp [List.filter, hy, ih]
      · simp [List.filter, hy, ih]
    · rw [if_neg h]
      simp [List.filter, hx]

/-- Stability: the sort preserves each key class as a subsequence. -/
theorem sortPure_filter {α : Type} (lt : α → α → Bool) (q : α → Bool)
    (hq : ∀ a b, q a = true → q b = true → lt a b = false) :
    ∀ l, (sortPure lt l).filter q = l.filter q := by
  intro l
  induction l with
  | nil => rfl
  | cons x xs ih =>
    simp only [sortPure]
    rcases hx : q x with _ | _
    · rw [insertPure_filter_neg lt q x hx]
      simp [List.filter, hx, ih]
    · rw [insertPure_filter_pos lt q hq x hx]
      simp [List.filter, hx, ih]

/-! ### Key extraction, comparator facts and the monadic-to-pure bridge -/

/-- The integer `age` key an element contributes (0 when absent; only
meaningful on `GoodElem`s). -/
def ageOf (x : JVal) : Int :=
  match x with
  | .jobj kvs =>
    match lookupD kvs (("age").data) (.jint 0) with
    | .jint n => n
    | _ => 0
  | _ => 0

/-- The string `name` key an element contributes. -/
def nameOf (x : JVal) : List Char :=
  match x with
  | .jobj kvs =>
    match lookupD kvs (("name").data) (.jstr []) with
    | .jstr s => s
    | _ => []
  | _ => []

/-- Lexicographic order on decoded `(age, name)` keys. -/
def ltKeyPair (p q : Int × List Char) : Bool :=
  if p.1 = q.1 then strLtL p.2 q.2 else decide (p.1 < q.1)

/-- Pure comparator for the both-fields branch. -/
def bothCmp (x y : JVal) : Bool :=
  ltKeyPair (ageOf x, nameOf x) (ageOf y, nameOf y)

/-- Pure comparator for the age-only branch. -/
def ageCmp (x y : JVal) : Bool :=
  decide (ageOf x < ageOf y)

/-- Pure comparator for the name-only branch. -/
def nameCmp (x y : JVal) : Bool :=
  strLtL (nameOf x) (nameOf y)

/-- Key-pair order is asymmetric. -/
theorem ltKeyPair_asymm (p q : Int × List Char) (h : ltKeyPair p q = true) :
    ltKeyPair q p = false := by
  unfold ltKeyPair at h ⊢
  by_cases he : p.1 = q.1
  · rw [if_pos he] at h
    rw [if_pos he.symm]
    exact strLtL_asymm _ _ h
  · rw [if_neg he] at h
    rw [if_neg (fun h2 => he h2.symm)]
    simp only [decide_eq_true_eq] at h
    simp only [decide_eq_false_iff_not]
    omega

/-- Key-pair order is transitive. -/
theorem ltKeyPair_trans (p q r : Int × List Char) (h1 : ltKeyPair p q = true)
    (h2 : ltKeyPair q r = true) : ltKeyPair p r = true := by
  unfold ltKeyPair at h1 h2 ⊢
  by_cases he1 : p.1 = q.1
  · rw [if_pos he1] at h1
    by_cases he2 : q.1 = r.1
    · rw [if_pos he2] at h2
      rw [if_pos (he1.trans he2)]
      exact strLtL_trans _ _ _ h1 h2
    · rw [if_neg he2] at h2
      rw [if_neg (he1 ▸ he2)]
      rw [he1]
      exact h2
  · rw [if_neg he1] at h1
    simp only [decide_eq_true_eq] at h1
    by_cases he2 : q.1 = r.1
    · rw [if_neg (he2 ▸ he1)]
      simp only [decide_eq_true_eq]
      omega
    · rw [if_neg he2] at h2
      simp only [decide_eq_true_eq] at h2
      rw [if_neg (by omega)]
      simp only [decide_eq_true_eq]
      omega

/-- Key pairs neither of which precedes the other are equal. -/
theorem ltKeyPair_connex (p q : Int × List Char) (h1 : ltKeyPair p q = false)
    (h2 : ltKeyPair q p = false) : p = q := by
  unfold ltKeyPair at h1 h2
  by_cases he : p.1 = q.1
  · rw [if_pos he] at h1
    rw [if_pos he.symm] at h2
    have := strLtL_connex _ _ h1 h2
    exact Prod.ext he this
  · rw [if_neg he] at h1
    rw [if_neg (fun h2 => he h2.symm)] at h2
    simp only [decide_eq_false_iff_not] at h1 h2
    omega

/-- Key-pair order is irreflexive. -/
theorem ltKeyPair_irrefl (p : Int × List Char) : ltKeyPair p p = false := by
  unfold ltKeyPair
  rw [if_pos rfl]
  exact strLtL_irrefl _

/-- Both-fields comparator facts. -/
theorem bothCmp_asymm (a b : JVal) (h : bothCmp a b = true) : bothCmp b a = false :=
  ltKeyPair_asymm _ _ h

/-- Negative transitivity for the both-fields comparator. -/
theorem bothCmp_negtrans (a b c : JVal) (h1 : bothCmp a b = false)
    (h2 : bothCmp b c = false) : bothCmp a c = false := by
  unfold bothCmp at h1 h2 ⊢
  have hconn := ltKeyPair_connex
  have htrans := ltKeyPair_trans
  by_contra hac
  simp only [Bool.not_eq_false] at hac
  rcases hcb : ltKeyPair (ageOf c, nameOf c) (ageOf b, nameOf b) with _ | _
  · have := hconn _ _ h2 hcb
    rw [this] at h1
    rw [hac] at h1
    cases h1
  · have := htrans _ _ _ hac hcb
    rw [this] at h1
    cases h1

/-- Age-only comparator facts. -/
theorem ageCmp_asymm (a b : JVal) (h : ageCmp a b = true) : ageCmp b a = false := by
  unfold ageCmp at h ⊢
  simp only [decide_eq_true_eq] at h
  simp only [decide_eq_false_iff_not]
  omega

/-- Negative transitivity for the age-only comparator. -/
theorem ageCmp_negtrans (a b c : JVal) (h1 : ageCmp a b = false)
    (h2 : ageCmp b c = false) : ageCmp a c = false := by
  unfold ageCmp at h1 h2 ⊢
  simp only [decide_eq_false_iff_not] at h1 h2 ⊢
  omega

/-- Name-only comparator facts. -/
theorem nameCmp_asymm (a b : JVal) (h : nameCmp a b = true) : nameCmp b a = false :=
  strLtL_asymm _ _ h

/-- Negative transitivity for the name-only comparator. -/
theorem nameCmp_negtrans (a b c : JVal) (h1 : nameCmp a b = false)
    (h2 : nameCmp b c = false) : nameCmp a c = false := by
  unfold nameCmp at h1 h2 ⊢
  by_contra hac
  simp only [Bool.not_eq_false] at hac
  rcases hcb : strLtL (nameOf c) (nameOf b) with _ | _
  · have := strLtL_connex _ _ h2 hcb
    rw [this] at h1
    rw [hac] at h1
    cases h1
  · have := strLtL_trans _ _ _ hac hcb
    rw [this] at h1
    cases h1

/-- An element of a well-typed array: a dict whose `age` (with default)
is the integer `ageOf` and whose `name` (with default) is the string
`nameOf`. -/
def GoodElem (x : JVal) : Prop :=
  ∃ kvs, x = .jobj kvs ∧
    lookupD kvs (("age").data) (.jint 0) = .jint (ageOf x) ∧
    lookupD kvs (("name").data) (.jstr []) = .jstr (nameOf x)

/-- A JSON array of objects whose `age` values are integers and `name`
values strings wherever present. -/
def GoodArr (data : List JVal) : Prop :=
  ∀ x ∈ data, GoodElem x

/-- On a good element the two-field key is the decoded pair. -/
theorem keyBoth_good (x : JVal) (h : GoodElem x) :
    keyBoth x = .ok (.jint (ageOf x), .jstr (nameOf x)) := by
  rcases h with ⟨kvs, rfl, ha, hn⟩
  show Except.ok (lookupD kvs (("age").data) (.jint 0), lookupD kvs (("name").data) (.jstr [])) = _
  rw [ha, hn]

/-- On a good element the age key is the decoded integer. -/
theorem keyAge_good (x : JVal) (h : GoodElem x) :
    keyAge x = .ok (.jint (ageOf x)) := by
  rcases h with ⟨kvs, rfl, ha, _⟩
  show Except.ok (lookupD kvs (("age").data) (.jint 0)) = _
  rw [ha]

/-- On a good element the name key is the decoded string. -/
theorem keyName_good (x : JVal) (h : GoodElem x) :
    keyName x = .ok (.jstr (nameOf x)) := by
  rcases h with ⟨kvs, rfl, _, hn⟩
  show Except.ok (lookupD kvs (("name").data) (.jstr [])) = _
  rw [hn]

/-- Key materialisation on a good array (both-fields branch). -/
theorem computeKeys_both (data : List JVal) (hg : GoodArr data) :
    computeKeys keyBoth data =
      .ok (data.map (fun z => ((.jint (ageOf z), .jstr (nameOf z)), z))) := by
  induction data with
  | nil => rfl
  | cons x xs ih =>
    simp only [computeKeys, List.map_cons]
    rw [keyBoth_good x (hg x (List.mem_cons_self x xs)),
      ih (fun z hz => hg z (List.mem_cons_of_mem x hz))]

/-- Key materialisation on a good array (age branch). -/
theorem computeKeys_age (data : List JVal) (hg : GoodArr data) :
    computeKeys keyAge data = .ok (data.map (fun z => (.jint (ageOf z), z))) := by
  induction data with
  | nil => rfl
  | cons x xs ih =>
    simp only [computeKeys, List.map_cons]
    rw [keyAge_good x (hg x (List.mem_cons_self x xs)),
      ih (fun z hz => hg z (List.mem_cons_of_mem x hz))]

/-- Key materialisation on a good array (name branch). -/
theorem computeKeys_name (data : List JVal) (hg : GoodArr data) :
    computeKeys keyName data = .ok (data.map (fun z => (.jstr (nameOf z), z))) := by
  induction data with
  | nil => rfl
  | cons x xs ih =>
    simp only [computeKeys, List.map_cons]
    rw [keyName_good x (hg x (List.mem_cons_self x xs)),
      ih (fun z hz => hg z (List.mem_cons_of_mem x hz))]

/-- The Python tuple comparator agrees with the pure comparator on
decoded keys. -/
theorem pairLt_decoded (x y : JVal) :
    pairLt (.jint (ageOf y), .jstr (nameOf y)) (.jint (ageOf x), .jstr (nameOf x)) =
      .ok (bothCmp y x) := by
  show (if pyEqV (.jint (ageOf y)) (.jint (ageOf x)) = true
        then pyLtV (.jstr (nameOf y)) (.jstr (nameOf x))
        else pyLtV (.jint (ageOf y)) (.jint (ageOf x))) =
    .ok (if ageOf y = ageOf x then strLtL (nameOf y) (nameOf x)
         else decide (ageOf y < ageOf x))
  by_cases he : ageOf y = ageOf x
  · rw [if_pos (by simp [pyEqV, he]), if_pos he]
    rfl
  · rw [if_neg (by simp [pyEqV, he]), if_neg he]
    rfl

/-- The Python scalar comparator agrees with the pure age comparator. -/
theorem pyLtV_age (x y : JVal) :
    pyLtV (.jint (ageOf y)) (.jint (ageOf x)) = .ok (ageCmp y x) := rfl

/-- The Python scalar comparator agrees with the pure name comparator. -/
theorem pyLtV_name (x y : JVal) :
    pyLtV (.jstr (nameOf y)) (.jstr (nameOf x)) = .ok (nameCmp y x) := rfl

/-- The fallible insertion agrees with pure insertion when the key
comparator never fails on decoded keys. -/
theorem insertE_bridge {K : Type} (ltK : K → K → Except (List Char) Bool)
    (cmp : JVal → JVal → Bool) (k : JVal → K)
    (hag : ∀ x y : JVal, ltK (k y) (k x) = .ok (cmp y x)) (x : JVal) :
    ∀ l : List JVal,
      insertE (fun p q => ltK p.1 q.1) (k x, x) (l.map (fun z => (k z, z))) =
        .ok ((insertPure cmp x l).map (fun z => (k z, z))) := by
  intro l
  induction l with
  | nil => rfl
  | cons y ys ih =>
    simp only [List.map_cons, insertE, insertPure]
    rw [hag x y]
    rcases hc : cmp y x with _ | _
    · simp only [hc, Bool.false_eq_true, if_false, List.map_cons]
    · simp only [hc, if_true, ih, List.map_cons]

/-- The fallible sort agrees with the pure sort under the same
agreement. -/
theorem sortE_bridge {K : Type} (ltK : K → K → Except (List Char) Bool)
    (cmp : JVal → JVal → Bool) (k : JVal → K)
    (hag : ∀ x y : JVal, ltK (k y) (k x) = .ok (cmp y x)) :
    ∀ l : List JVal,
      sortE (fun p q => ltK p.1 q.1) (l.map (fun z => (k z, z))) =
        .ok ((sortPure cmp l).map (fun z => (k z, z))) := by
  intro l
  induction l with
  | nil => rfl
  | cons x xs ih =>
    simp only [List.map_cons, sortE, ih, sortPure]
    exact insertE_bridge ltK cmp k hag x (sortPure cmp xs)

/-- `sorted(data, key=f)` is the pure stable sort when key materialising
and comparing both succeed. -/
theorem sortByKey_bridge {K : Type} (f : JVal → Except (List Char) K)
    (ltK : K → K → Except (List Char) Bool) (cmp : JVal → JVal → Bool)
    (k : JVal → K) (data : List JVal)
    (hf : computeKeys f data = .ok (data.map (fun z => (k z, z))))
    (hag : ∀ x y : JVal, ltK (k y) (k x) = .ok (cmp y x)) :
    sortByKey f ltK data = .ok (sortPure cmp data) := by
  unfold sortByKey
  rw [hf]
  show (match sortE (fun p q => ltK p.1 q.1) (data.map (fun z => (k z, z))) with
        | Except.error e => Except.error e
        | Except.ok sorted_pairs => Except.ok (sorted_pairs.map Prod.snd)) = _
  rw [sortE_bridge ltK cmp k hag]
  simp only [List.map_map]
  have hid : (Prod.snd ∘ fun z : JVal => (k z, z)) = id := rfl
  rw [hid, List.map_id]

/-- `any` is invariant under permutation. -/
theorem any_eq_of_perm {α : Type} (p : α → Bool) {l l' : List α}
    (h : l.Perm l') : l.any p = l'.any p := by
  by_cases hl : l.any p = true
  · rcases List.any_eq_true.mp hl with ⟨x, hx, hpx⟩
    rw [hl, Eq.comm]
    exact List.any_eq_true.mpr ⟨x, h.mem_iff.mp hx, hpx⟩
  · simp only [Bool.not_eq_true] at hl
    rw [hl, Eq.comm]
    simp only [Bool.eq_false_iff, Ne, List.any_eq_true]
    rintro ⟨x, hx, hpx⟩
    have : l.any p = true := List.any_eq_true.mpr ⟨x, h.mem_iff.mpr hx, hpx⟩
    rw [this] at hl
    cases hl

/-- `hasField` is invariant under permutation. -/
theorem hasField_of_perm (k : List Char) {l l' : List JVal} (h : l.Perm l') :
    hasField k l = hasField k l' :=
  any_eq_of_perm _ h

/-- The pure model of the whole branch structure of `sort_json`. -/
def pySortModel (data : List JVal) : List JVal :=
  if hasField (("age").data) data && hasField (("name").data) data then
    sortPure bothCmp data
  else if hasField (("age").data) data then sortPure ageCmp data
  else if hasField (("name").data) data then sortPure nameCmp data
  else data

/-- On a good array `sorted` does not raise, and computes the pure
stable sort of the branch the field flags select. -/
theorem sortedListOf_good (data : List JVal) (hg : GoodArr data) :
    sortedListOf data = .ok (pySortModel data) := by
  unfold sortedListOf pySortModel
  by_cases h1 : (hasField (("age").data) data && hasField (("name").data) data) = true
  · rw [if_pos h1, if_pos h1]
    exact sortByKey_bridge keyBoth pairLt bothCmp
      (fun z => (.jint (ageOf z), .jstr (nameOf z))) data
      (computeKeys_both data hg) (fun x y => pairLt_decoded x y)
  · rw [if_neg h1, if_neg h1]
    by_cases h2 : hasField (("age").data) data = true
    · rw [if_pos h2, if_pos h2]
      exact sortByKey_bridge keyAge pyLtV ageCmp (fun z => .jint (ageOf z)) data
        (computeKeys_age data hg) (fun x y => pyLtV_age x y)
    · rw [if_neg h2, if_neg h2]
      by_cases h3 : hasField (("name").data) data = true
      · rw [if_pos h3, if_pos h3]
        exact sortByKey_bridge keyName pyLtV nameCmp (fun z => .jstr (nameOf z)) data
          (computeKeys_name data hg) (fun x y => pyLtV_name x y)
      · rw [if_neg h3, if_neg h3]

/-- The pure model permutes its input. -/
theorem pySortModel_perm (data : List JVal) : (pySortModel data).Perm data := by
  unfold pySortModel
  split_ifs <;> first | exact sortPure_perm _ _ | exact List.Perm.refl _

/-- The pure model is idempotent. -/
theorem pySortModel_idem (data : List JVal) :
    pySortModel (pySortModel data) = pySortModel data := by
  have hperm := pySortModel_perm data
  have hA := hasField_of_perm (("age").data) hperm
  have hN := hasField_of_perm (("name").data) hperm
  show (if (hasField (("age").data) (pySortModel data) &&
            hasField (("name").data) (pySortModel data)) = true then
          sortPure bothCmp (pySortModel data)
        else if hasField (("age").data) (pySortModel data) = true then
          sortPure ageCmp (pySortModel data)
        else if hasField (("name").data) (pySortModel data) = true then
          sortPure nameCmp (pySortModel data)
        else pySortModel data) = pySortModel data
  rw [hA, hN]
  by_cases h1 : (hasField (("age").data) data && hasField (("name").data) data) = true
  · rw [if_pos h1]
    have he : pySortModel data = sortPure bothCmp data := by
      unfold pySortModel
      rw [if_pos h1]
    rw [he]
    exact sortPure_idem bothCmp bothCmp_asymm bothCmp_negtrans data
  · rw [if_neg h1]
    by_cases h2 : hasField (("age").data) data = true
    · rw [if_pos h2]
      have he : pySortModel data = sortPure ageCmp data := by
        unfold pySortModel
        rw [if_neg h1, if_pos h2]
      rw [he]
      exact sortPure_idem ageCmp ageCmp_asymm ageCmp_negtrans data
    · rw [if_neg h2]
      by_cases h3 : hasField (("name").data) data = true
      · rw [if_pos h3]
        have he : pySortModel data = sortPure nameCmp data := by
          unfold pySortModel
          rw [if_neg h1, if_neg h2, if_pos h3]
        rw [he]
        exact sortPure_idem nameCmp nameCmp_asymm nameCmp_negtrans data
      · rw [if_neg h3]

/-- Stability of the pure model: each `(age, name)` key class is kept in
input order. -/
theorem pySortModel_filter (data : List JVal) (k : Int × List Char) :
    (pySortModel data).filter (fun x => decide ((ageOf x, nameOf x) = k)) =
      data.filter (fun x => decide ((ageOf x, nameOf x) = k)) := by
  obtain ⟨k1, k2⟩ := k
  unfold pySortModel
  split_ifs with h1 h2 h3
  · refine sortPure_filter bothCmp _ ?_ data
    intro a b ha hb
    simp only [decide_eq_true_eq, Prod.mk.injEq] at ha hb
    unfold bothCmp
    rw [show (ageOf a, nameOf a) = (k1, k2) from Prod.ext ha.1 ha.2,
      show (ageOf b, nameOf b) = (k1, k2) from Prod.ext hb.1 hb.2]
    exact ltKeyPair_irrefl (k1, k2)
  · refine sortPure_filter ageCmp _ ?_ data
    intro a b ha hb
    simp only [decide_eq_true_eq, Prod.mk.injEq] at ha hb
    unfold ageCmp
    simp only [decide_eq_false_iff_not]
    omega
  · refine sortPure_filter nameCmp _ ?_ data
    intro a b ha hb
    simp only [decide_eq_true_eq, Prod.mk.injEq] at ha hb
    unfold nameCmp
    rw [ha.2, hb.2]
    exact strLtL_irrefl _
  · rfl

/-- Counterexample for C7 as frozen: on the JSON array of objects
`[{"age": 1}, {"age": "x"}]` the handler's output is a `TypeError`
message (Python cannot compare the mixed-type age keys), which contains
whitespace and is not a compact JSON string at all — so applying the
handler to its own output cannot yield a byte-identical compact
(no-whitespace) string. -/
theorem C7_mixed_key_types_counterexample :
    sort_json (.jarr [.jobj [(("age").data, .jint 1)],
        .jobj [(("age").data, .jstr (("x").data))]]) =
      "Error processing JSON: \x27<\x27 not supported between instances of \x27str\x27 and \x27int\x27" ∧
    isSubL ((" ").data)
      (sort_json (.jarr [.jobj [(("age").data, .jint 1)],
        .jobj [(("age").data, .jstr (("x").data))]])).data = true :=
  ⟨rfl, rfl⟩

/-- C7 (amended): for every JSON array of objects whose `age` values are
integers and `name` values strings wherever present, `sorted` does not
raise; the handler is idempotent — the array denoted by its output
re-sorts to itself, so the second application's output is byte-identical
to the first — and the sort is stable: every `(age, name)` key class of
elements keeps its input order (as the filter equality states), the
output being a permutation of the input. -/
theorem C7_sort_idempotent_and_stable (data : List JVal) (hg : GoodArr data) :
    ∃ l', sortedListOf data = .ok l' ∧
      sort_json (.jarr l') = sort_json (.jarr data) ∧
      (∀ k : Int × List Char,
        l'.filter (fun x => decide ((ageOf x, nameOf x) = k)) =
          data.filter (fun x => decide ((ageOf x, nameOf x) = k))) ∧
      l'.Perm data := by
  refine ⟨pySortModel data, sortedListOf_good data hg, ?_,
    pySortModel_filter data, pySortModel_perm data⟩
  have hg' : GoodArr (pySortModel data) :=
    fun x hx => hg x ((pySortModel_perm data).mem_iff.mp hx)
  have h1 : sortedListOf (pySortModel data) = .ok (pySortModel (pySortModel data)) :=
    sortedListOf_good _ hg'
  rw [pySortModel_idem] at h1
  show (match sortedListOf (pySortModel data) with
        | Except.ok sorted_data => String.mk (jsonDumpsC (.jarr sorted_data))
        | Except.error e => String.mk (("Error processing JSON: ").data ++ e)) =
       (match sortedListOf data with
        | Except.ok sorted_data => String.mk (jsonDumpsC (.jarr sorted_data))
        | Except.error e => String.mk (("Error processing JSON: ").data ++ e))
  rw [h1, sortedListOf_good data hg]

/-- Witness for C7 on the specification's end-to-end scenario array
(Alice 55, Bob 30, Charlie 55). -/
theorem C7_sort_idempotent_and_stable_witness :
    GoodArr [.jobj [(("name").data, .jstr (("Alice").data)), (("age").data, .jint 55)],
             .jobj [(("name").data, .jstr (("Bob").data)), (("age").data, .jint 30)],
             .jobj [(("name").data, .jstr (("Charlie").data)), (("age").data, .jint 55)]] ∧
    (∃ l', sortedListOf
        [.jobj [(("name").data, .jstr (("Alice").data)), (("age").data, .jint 55)],
         .jobj [(("name").data, .jstr (("Bob").data)), (("age").data, .jint 30)],
         .jobj [(("name").data, .jstr (("Charlie").data)), (("age").data, .jint 55)]] = .ok l' ∧
      sort_json (.jarr l') = sort_json (.jarr
        [.jobj [(("name").data, .jstr (("Alice").data)), (("age").data, .jint 55)],
         .jobj [(("name").data, .jstr (("Bob").data)), (("age").data, .jint 30)],
         .jobj [(("name").data, .jstr (("Charlie").data)), (("age").data, .jint 55)]]) ∧
      (∀ k : Int × List Char,
        l'.filter (fun x => decide ((ageOf x, nameOf x) = k)) =
          [.jobj [(("name").data, .jstr (("Alice").data)), (("age").data, .jint 55)],
           .jobj [(("name").data, .jstr (("Bob").data)), (("age").data, .jint 30)],
           .jobj [(("name").data, .jstr (("Charlie").data)), (("age").data, .jint 55)]].filter
            (fun x => decide ((ageOf x, nameOf x) = k))) ∧
      l'.Perm
        [.jobj [(("name").data, .jstr (("Alice").data)), (("age").data, .jint 55)],
         .jobj [(("name").data, .jstr (("Bob").data)), (("age").data, .jint 30)],
         .jobj [(("name").data, .jstr (("Charlie").data)), (("age").data, .jint 55)]]) := by
  have hgood : GoodArr
      [.jobj [(("name").data, .jstr (("Alice").data)), (("age").data, .jint 55)],
       .jobj [(("name").data, .jstr (("Bob").data)), (("age").data, .jint 30)],
       .jobj [(("name").data, .jstr (("Charlie").data)), (("age").data, .jint 55)]] := by
    intro x hx
    simp only [List.mem_cons, List.not_mem_nil, or_false] at hx
    rcases hx with rfl | rfl | rfl
    · exact ⟨_, rfl, rfl, rfl⟩
    · exact ⟨_, rfl, rfl, rfl⟩
    · exact ⟨_, rfl, rfl, rfl⟩
  exact ⟨hgood, C7_sort_idempotent_and_stable _ hgood⟩
